import Mathlib

/-!
Verification of the solara-timetabling-service optimization core.

The Python source is embedded shallowly:

* entity dataclasses become Lean structures;
* Python dicts become association lists `List (ℕ × α)` preserving
  insertion order (the iteration order of a Python dict), with helper
  operations mirroring `d[k]`, `k in d`, `d.pop(k, None)`,
  `d.setdefault(k, []).append(v)` and `d[k].remove(v)`;
* the timetable matrix becomes a total function `ℕ → ℕ → Option ℕ`
  together with an explicit column count (the Python matrix is a
  rectangular list of lists);
* `int` arithmetic in day-boundary checks is performed in `ℤ` with
  `Int.emod`, which agrees with Python's `%` on negative numbers;
* randomness and floating-point comparisons (`random.uniform(0,1) < sigma`,
  `rt <= math.exp(...)`) are pre-sampled Boolean/index oracles passed in as
  arguments, so theorems quantify over every possible outcome;
* `list.sort()` is modelled by the pure stable `List.insertionSort`
  (the in-place sort only reorders lists whose later uses are
  order-insensitive: multiset-valued bookkeeping and re-sorting).
-/

namespace Solara

/-- SpaceType(id, name). -/
structure SpaceType where
  id : ℕ
  name : String
deriving DecidableEq, Inhabited

/-- Classroom(id, name, floor, capacity, blocked, space_type). -/
structure Classroom where
  id : ℕ
  name : String
  floor : ℤ
  capacity : ℕ
  blocked : Bool
  space_type : SpaceType
deriving DecidableEq, Inhabited

/-- Subject(id, name, required_space_type, course); the course is not
read by the optimizer, so only its id is kept. -/
structure Subject where
  id : ℕ
  name : String
  required_space_type : SpaceType
  course_id : ℕ
deriving DecidableEq, Inhabited

/-- Teacher(id, full_name); available schedules live in
`TimetableData.teacher_schedules`. -/
structure Teacher where
  id : ℕ
  full_name : String
deriving DecidableEq, Inhabited

/-- ClassGroup(id, name, ...); only the id is read by the optimizer. -/
structure ClassGroup where
  id : ℕ
  name : String
deriving DecidableEq, Inhabited

/-- Schedule(id, weekday, start_time, end_time). -/
structure Schedule where
  id : ℕ
  weekday : String
  start_time : String
  end_time : String
deriving DecidableEq, Inhabited

/-- ClassAllocation: a class group takes a subject with a teacher for
`duration` hours.  `possible_classrooms` is filled by
`load_data_from_database`. -/
structure ClassAllocation where
  id : ℕ
  class_group : ClassGroup
  subject : Subject
  teacher : Teacher
  duration : ℕ
  possible_classrooms : List ℕ
deriving DecidableEq, Inhabited

/-- TimetableData.  `class_allocations` is keyed 0..n-1 by the consumer
(`enumerate`), so it is a plain list indexed by position; the other
mappings are association lists in insertion order. -/
structure TimetableData where
  class_allocations : List ClassAllocation
  classrooms : List (ℕ × Classroom)
  teachers : List (ℕ × Teacher)
  class_groups : List (ℕ × ClassGroup)
  schedules : List (ℕ × Schedule)
  teacher_schedules : Option (List (ℕ × List ℕ))
deriving DecidableEq, Inhabited

/-- `data.class_allocations[i]`; total with a default, faithful on the
in-range indices the program uses. -/
def allocAt (data : TimetableData) (i : ℕ) : ClassAllocation :=
  data.class_allocations.getD i default

/-! ## Dict helpers (Python dict as association list) -/

/-- `d[k]` as an option (`None` when `k not in d`). -/
def alist_lookup {α : Type} (d : List (ℕ × α)) (k : ℕ) : Option α :=
  (d.find? (fun p => p.1 == k)).map Prod.snd

/-- `k in d`. -/
def alist_member {α : Type} (d : List (ℕ × α)) (k : ℕ) : Bool :=
  (alist_lookup d k).isSome

/-- `d[k]` with the `[]` a missing key denotes in the bookkeeping dicts. -/
def lookup_list {α : Type} (d : List (ℕ × List α)) (k : ℕ) : List α :=
  (alist_lookup d k).getD []

/-- `if k not in d: d[k] = []` followed by `d[k].append(v)`, and also
`d.setdefault(k, []).append(v)`: extend the entry, creating it at the end
of the dict when absent. -/
def alist_append {α : Type} (d : List (ℕ × List α)) (k : ℕ) (v : α) :
    List (ℕ × List α) :=
  if alist_member d k then
    d.map (fun p => if p.1 == k then (p.1, p.2 ++ [v]) else p)
  else
    d ++ [(k, [v])]

/-- `if k in d and v in d[k]: d[k].remove(v)`: remove the first occurrence
of `v` from the entry at `k`, when both exist. -/
def alist_remove_first {α : Type} [DecidableEq α] (d : List (ℕ × List α)) (k : ℕ) (v : α) :
    List (ℕ × List α) :=
  match alist_lookup d k with
  | none => d
  | some l =>
    if v ∈ l then d.map (fun p => if p.1 == k then (p.1, p.2.erase v) else p) else d

/-- `d.pop(k, None)`: drop the entry at `k` if present. -/
def alist_pop {α : Type} (d : List (ℕ × α)) (k : ℕ) : List (ℕ × α) :=
  d.eraseP (fun p => p.1 == k)

/-! ## Soft-constraint costs (`app/utils/costs.py`) -/

/-- The pairs `(times[i-1], times[i])` for `i in range(1, len(times) - 1)`
scanned by the empty-space cost loops. -/
def scanned_pairs (times : List ℕ) : List (ℕ × ℕ) :=
  (List.range' 1 (times.length - 1 - 1)).map
    (fun i => (times.getD (i - 1) 0, times.getD i 0))

/-- Contribution of one scanned pair to the total cost
(`if a // 12 == b // 12 and diff > 1: cost += diff - 1`). -/
def pair_gap (p : ℕ × ℕ) : ℕ :=
  if p.1 / 12 = p.2 / 12 ∧ p.2 - p.1 > 1 then p.2 - p.1 - 1 else 0

/-- Contribution of one scanned pair to `empty_per_day[day]`. -/
def pair_gap_day (p : ℕ × ℕ) (day : ℕ) : ℕ :=
  if p.1 / 12 = day then pair_gap p else 0

/-- Total gap cost added by one dict entry (its `times` already sorted). -/
def entry_cost (times : List ℕ) : ℕ :=
  ((scanned_pairs times).map pair_gap).sum

/-- `empty_per_day` of one dict entry as a function of the day. -/
def entry_per_day (times : List ℕ) (day : ℕ) : ℕ :=
  ((scanned_pairs times).map (fun p => pair_gap_day p day)).sum

/-- `times.sort()`. -/
def sort_times (times : List ℕ) : List ℕ :=
  times.insertionSort (· ≤ ·)

/-- `empty_space_groups_cost(groups_empty_space)`: returns
(total cost, max empty space in one day, average per group). -/
def empty_space_groups_cost (groups_empty_space : List (ℕ × List ℕ)) :
    ℕ × ℕ × ℚ :=
  let step := fun (acc : ℕ × ℕ) (entry : ℕ × List ℕ) =>
    let times := sort_times entry.2
    let cost := acc.1 + entry_cost times
    let maxE := (List.range 5).foldl
      (fun m day => if m < entry_per_day times day then entry_per_day times day else m)
      acc.2
    (cost, maxE)
  let res := groups_empty_space.foldl step (0, 0)
  if groups_empty_space.length = 0 then (0, 0, 0)
  else (res.1, res.2, (res.1 : ℚ) / (groups_empty_space.length : ℚ))

/-- `empty_space_teachers_cost(teachers_empty_space)`: identical scan,
keyed by teacher. -/
def empty_space_teachers_cost (teachers_empty_space : List (ℕ × List ℕ)) :
    ℕ × ℕ × ℚ :=
  let step := fun (acc : ℕ × ℕ) (entry : ℕ × List ℕ) =>
    let times := sort_times entry.2
    let cost := acc.1 + entry_cost times
    let maxE := (List.range 5).foldl
      (fun m day => if m < entry_per_day times day then entry_per_day times day else m)
      acc.2
    (cost, maxE)
  let res := teachers_empty_space.foldl step (0, 0)
  if teachers_empty_space.length = 0 then (0, 0, 0)
  else (res.1, res.2, (res.1 : ℚ) / (teachers_empty_space.length : ℚ))

/-! ## Claim C8: which consecutive pairs does the soft-cost scan visit? -/

/-- All consecutive pairs of a list. -/
def consec_pairs (l : List ℕ) : List (ℕ × ℕ) :=
  l.zip l.tail

/-! ## Row-to-schedule mapping (`optimizer.map_row_to_schedule`) -/

/-- Python `f"{n:02d}"` for a natural number. -/
def fmt2 (n : ℕ) : String :=
  if n < 10 then "0" ++ toString n else toString n

/-- `map_row_to_schedule(row, schedules)`: map a matrix row to the id of
the first schedule whose weekday matches the row's day and whose
`start_time` starts with the two-digit hour. -/
def map_row_to_schedule (row : ℕ) (schedules : List (ℕ × Schedule)) : Option ℕ :=
  if schedules.isEmpty then none
  else
    let days := ["Monday", "Tuesday", "Wednesday", "Thursday", "Friday"]
    let day_index := row / 12
    if days.length ≤ day_index then none
    else
      let weekday := days.getD day_index ""
      let hour := 7 + row % 12
      match schedules.find? (fun p =>
          p.2.weekday == weekday && (fmt2 hour ++ ":").isPrefixOf p.2.start_time) with
      | some p => some p.1
      | none => none

/-- The SCHEDULE_TEACHER availability test, inlined identically in
`hard_constraints_cost`, `check_hard_constraints` and
`valid_teacher_group_row`: true when the teacher has a non-empty
restriction list and `row` maps to no schedule id in it. -/
def availability_violation (data : TimetableData) (allocation : ClassAllocation)
    (row : ℕ) : Bool :=
  match data.teacher_schedules with
  | none => false
  | some ts =>
    match alist_lookup ts allocation.teacher.id with
    | none => false
    | some available_schedule_ids =>
      if available_schedule_ids.isEmpty then false
      else
        match map_row_to_schedule row data.schedules with
        | none => true
        | some schedule_id => !(available_schedule_ids.contains schedule_id)

/-! ## Hard-constraint costs (`app/utils/costs.py`) -/

/-- Accumulator of `hard_constraints_cost`: the per-allocation cost dict
and the four violation buckets. -/
structure HardCost where
  cost_allocation : ℕ → ℕ
  cost_teacher : ℕ
  cost_classrooms : ℕ
  cost_group : ℕ
  cost_teacher_availability : ℕ

/-- `cost_allocation[field] += 1`. -/
def bump (f : ℕ → ℕ) (a : ℕ) : ℕ → ℕ :=
  fun x => if x = a then f x + 1 else f x

/-- Body of the `hard_constraints_cost` loop for one matrix cell `(i, j)`:
room-compatibility check, teacher-availability check, then the inner
`for k in range(j + 1, ...)` conflict scan. -/
def hard_cell_step (data : TimetableData) (matrix : ℕ → ℕ → Option ℕ) (cols i j : ℕ)
    (acc : HardCost) : HardCost :=
  match matrix i j with
  | none => acc
  | some field =>
    let allocation1 := allocAt data field
    let acc1 :=
      if allocation1.possible_classrooms.contains j then acc
      else { acc with
        cost_classrooms := acc.cost_classrooms + 1,
        cost_allocation := bump acc.cost_allocation field }
    let acc2 :=
      if availability_violation data allocation1 i then
        { acc1 with
          cost_teacher_availability := acc1.cost_teacher_availability + 1,
          cost_allocation := bump acc1.cost_allocation field }
      else acc1
    (List.range' (j + 1) (cols - (j + 1))).foldl
      (fun acc3 k =>
        match matrix i k with
        | none => acc3
        | some next_field =>
          let allocation2 := allocAt data next_field
          let acc4 :=
            if allocation1.teacher.id == allocation2.teacher.id then
              { acc3 with
                cost_teacher := acc3.cost_teacher + 1,
                cost_allocation := bump acc3.cost_allocation field }
            else acc3
          if allocation1.class_group.id == allocation2.class_group.id then
            { acc4 with
              cost_group := acc4.cost_group + 1,
              cost_allocation := bump acc4.cost_allocation field }
          else acc4)
      acc2

/-- `hard_constraints_cost(matrix, data)` over a `rows × cols` matrix;
`cost_allocation` starts at 0 on every allocation index. -/
def hard_constraints_cost (rows cols : ℕ) (matrix : ℕ → ℕ → Option ℕ)
    (data : TimetableData) : HardCost :=
  (List.range rows).foldl
    (fun acc i => (List.range cols).foldl
      (fun acc j => hard_cell_step data matrix cols i j acc) acc)
    { cost_allocation := fun _ => 0, cost_teacher := 0, cost_classrooms := 0,
      cost_group := 0, cost_teacher_availability := 0 }

/-- `total_cost = cost_teacher + cost_classrooms + cost_group +
cost_teacher_availability`, the first component of the Python tuple. -/
def hard_total (h : HardCost) : ℕ :=
  h.cost_teacher + h.cost_classrooms + h.cost_group + h.cost_teacher_availability

/-- `check_hard_constraints(matrix, data)`: same checks, with the pair
scan running over every `k != j` (both sides). -/
def check_hard_constraints (rows cols : ℕ) (matrix : ℕ → ℕ → Option ℕ)
    (data : TimetableData) : ℕ :=
  (List.range rows).foldl
    (fun acc i => (List.range cols).foldl
      (fun acc j =>
        match matrix i j with
        | none => acc
        | some field =>
          let allocation1 := allocAt data field
          let acc1 := if allocation1.possible_classrooms.contains j then acc else acc + 1
          let acc2 := if availability_violation data allocation1 i then acc1 + 1 else acc1
          (List.range cols).foldl
            (fun acc3 k =>
              if k == j then acc3
              else
                match matrix i k with
                | none => acc3
                | some next_field =>
                  let allocation2 := allocAt data next_field
                  let acc4 :=
                    if allocation1.teacher.id == allocation2.teacher.id then acc3 + 1 else acc3
                  if allocation1.class_group.id == allocation2.class_group.id then acc4 + 1
                  else acc4)
            acc2)
      acc)
    0

/-! ### Per-cell violation counts (read off the loop bodies) -/

/-- 1 when the cell holds an allocation whose room (column) is not
admissible. -/
def room_viol (data : TimetableData) (matrix : ℕ → ℕ → Option ℕ) (i j : ℕ) : ℕ :=
  match matrix i j with
  | none => 0
  | some field =>
    if (allocAt data field).possible_classrooms.contains j then 0 else 1

/-- 1 when the cell holds an allocation whose teacher is unavailable at
row `i`. -/
def avail_viol (data : TimetableData) (matrix : ℕ → ℕ → Option ℕ) (i j : ℕ) : ℕ :=
  match matrix i j with
  | none => 0
  | some field => if availability_violation data (allocAt data field) i then 1 else 0

/-- 1 when cells `(i, j)` and `(i, k)` are both occupied by allocations of
the same teacher. -/
def teacher_conflict (data : TimetableData) (matrix : ℕ → ℕ → Option ℕ) (i j k : ℕ) : ℕ :=
  match matrix i j, matrix i k with
  | some f, some g =>
    if (allocAt data f).teacher.id = (allocAt data g).teacher.id then 1 else 0
  | _, _ => 0

/-- 1 when cells `(i, j)` and `(i, k)` are both occupied by allocations of
the same class group. -/
def group_conflict (data : TimetableData) (matrix : ℕ → ℕ → Option ℕ) (i j k : ℕ) : ℕ :=
  match matrix i j, matrix i k with
  | some f, some g =>
    if (allocAt data f).class_group.id = (allocAt data g).class_group.id then 1 else 0
  | _, _ => 0

/-- What one cell of `hard_constraints_cost` adds to `cost_allocation[a]`:
everything is credited to the allocation sitting at `(i, j)` — the left
side of each scanned pair. -/
def cell_alloc_contrib (data : TimetableData) (matrix : ℕ → ℕ → Option ℕ)
    (cols i j a : ℕ) : ℕ :=
  if matrix i j = some a then
    room_viol data matrix i j + avail_viol data matrix i j +
      ((List.range' (j + 1) (cols - (j + 1))).map
        (fun k => teacher_conflict data matrix i j k + group_conflict data matrix i j k)).sum
  else 0

/-- What one cell of `check_hard_constraints` adds to the overlap count:
its room and availability violations plus both-sided same-row conflicts. -/
def check_cell (data : TimetableData) (matrix : ℕ → ℕ → Option ℕ) (cols i j : ℕ) : ℕ :=
  room_viol data matrix i j + avail_viol data matrix i j +
    ((List.range cols).map (fun k =>
      if k = j then 0
      else teacher_conflict data matrix i j k + group_conflict data matrix i j k)).sum

/-- No hard-constraint violation anywhere in the `rows × cols` matrix. -/
def hard_ok (data : TimetableData) (matrix : ℕ → ℕ → Option ℕ) (rows cols : ℕ) : Prop :=
  ∀ i < rows, ∀ j < cols,
    room_viol data matrix i j = 0 ∧ avail_viol data matrix i j = 0 ∧
      ∀ k < cols, k ≠ j →
        teacher_conflict data matrix i j k = 0 ∧ group_conflict data matrix i j k = 0

/-! ## Claim C7: per-allocation accounting of pair conflicts -/

/-- A minimal allocation with the given teacher and group ids, admissible
in columns 0 and 1. -/
def c7_alloc (t g : ℕ) : ClassAllocation :=
  { id := 0, class_group := { id := g, name := "" }, subject := default,
    teacher := { id := t, full_name := "" }, duration := 1,
    possible_classrooms := [0, 1] }

/-- Two allocations sharing teacher 1, in different groups. -/
def c7_data : TimetableData :=
  { class_allocations := [c7_alloc 1 1, c7_alloc 1 2], classrooms := [],
    teachers := [], class_groups := [], schedules := [],
    teacher_schedules := none }

/-- Allocation 0 in room 0 and allocation 1 in room 1, both at row 0. -/
def c7_matrix : ℕ → ℕ → Option ℕ := fun i j =>
  if i = 0 ∧ j = 0 then some 0 else if i = 0 ∧ j = 1 then some 1 else none

/-! ## Preprocessor (`app/utils/utils.py`, claim C4) -/

/-- `load_data_from_database(timetable_data, teachers_empty_space,
groups_empty_space)`: initialize the empty-space dicts with one `[]` entry
per teacher / class group, and set each allocation's
`possible_classrooms` to the list of `classrooms`-dict **keys** whose room
has the required space type and is not blocked.  Returns the data and the
two (mutated) dicts. -/
def load_data_from_database (timetable_data : TimetableData)
    (teachers_empty_space groups_empty_space : List (ℕ × List ℕ)) :
    TimetableData × List (ℕ × List ℕ) × List (ℕ × List ℕ) :=
  let tes := timetable_data.teachers.foldl
    (fun d p => if alist_member d p.1 then d else d ++ [(p.1, ([] : List ℕ))])
    teachers_empty_space
  let ges := timetable_data.class_groups.foldl
    (fun d p => if alist_member d p.1 then d else d ++ [(p.1, ([] : List ℕ))])
    groups_empty_space
  let allocations := timetable_data.class_allocations.map (fun allocation =>
    { allocation with possible_classrooms :=
        (timetable_data.classrooms.filter (fun q =>
          q.2.space_type.id == allocation.subject.required_space_type.id &&
            !q.2.blocked)).map Prod.fst })
  ({ timetable_data with class_allocations := allocations }, tes, ges)

/-- Modelled from the claim's words: the set of matrix **column indices**
(positions in the stable classroom enumeration 0..R-1 that builds the
60 × R matrix) whose room matches the required space type and is not
blocked.  Compared against what `load_data_from_database` computes. -/
def possible_columns_spec (data : TimetableData) (allocation : ClassAllocation) : List ℕ :=
  ((data.classrooms.enum).filter (fun q =>
    q.2.2.space_type.id == allocation.subject.required_space_type.id &&
      !q.2.2.blocked)).map Prod.fst

/-- A type-1 room stored under dict key 5 (a realistic database id). -/
def c4_room : Classroom :=
  { id := 5, name := "", floor := 0, capacity := 0, blocked := false,
    space_type := { id := 1, name := "" } }

/-- A subject requiring space type 1. -/
def c4_subject : Subject :=
  { id := 0, name := "", required_space_type := { id := 1, name := "" }, course_id := 0 }

/-- One allocation requiring space type 1. -/
def c4_alloc : ClassAllocation :=
  { id := 0, class_group := default, subject := c4_subject,
    teacher := default, duration := 1, possible_classrooms := [] }

def c4_data : TimetableData :=
  { class_allocations := [c4_alloc], classrooms := [(5, c4_room)], teachers := [],
    class_groups := [], schedules := [], teacher_schedules := none }

/-- The counterexample data with the room stored under key 0 instead. -/
def c4_good_data : TimetableData :=
  { class_allocations := [c4_alloc], classrooms := [(0, { c4_room with id := 0 })],
    teachers := [], class_groups := [], schedules := [], teacher_schedules := none }

/-! ## Candidate state and placement operations (`app/services/optimizer.py`) -/

/-- The mutable candidate: matrix, free list, filled dict and the two
empty-space dicts. -/
structure OptState where
  matrix : ℕ → ℕ → Option ℕ
  free : List (ℕ × ℕ)
  filled : List (ℕ × List (ℕ × ℕ))
  groups_empty_space : List (ℕ × List ℕ)
  teachers_empty_space : List (ℕ × List ℕ)

/-- `matrix[r][c] = v`. -/
def matrix_set (m : ℕ → ℕ → Option ℕ) (r c : ℕ) (v : Option ℕ) :
    ℕ → ℕ → Option ℕ :=
  fun i j => if i = r ∧ j = c then v else m i j

/-- `set_up(num_of_classrooms)`: the empty matrix and the row-major free
list over `num_of_time_slots` (default 60) rows. -/
def set_up (num_of_classrooms : ℕ) (num_of_time_slots : ℕ := 60) :
    (ℕ → ℕ → Option ℕ) × List (ℕ × ℕ) :=
  (fun _ _ => none,
    (List.range num_of_time_slots).flatMap (fun i =>
      (List.range num_of_classrooms).map (fun j => (i, j))))

/-- The 60-row grid of cells, i.e. the free list `set_up` builds. -/
def grid_cells (cols : ℕ) : List (ℕ × ℕ) :=
  (List.range 60).flatMap (fun i => (List.range cols).map (fun j => (i, j)))

/-- `start_time % 12 > end_time % 12` with `end_time = start_time +
duration - 1` computed in `ℤ` (Python int semantics, including
`duration = 0`). -/
def spans_midnight (start_time duration : ℕ) : Bool :=
  decide ((((start_time : ℤ) + (duration : ℤ) - 1) % 12) < ((start_time : ℤ) % 12))

/-- `valid_teacher_group_row(matrix, data, allocation_index, row)`:
teacher availability at `row` plus absence of teacher / class-group
conflicts against every occupied cell of `matrix[row]` (which has `cols`
columns). -/
def valid_teacher_group_row (matrix : ℕ → ℕ → Option ℕ) (cols : ℕ)
    (data : TimetableData) (allocation_index row : ℕ) : Bool :=
  let allocation1 := allocAt data allocation_index
  !(availability_violation data allocation1 row) &&
    (List.range cols).all (fun j =>
      match matrix row j with
      | none => true
      | some idx2 =>
        let allocation2 := allocAt data idx2
        !(allocation1.teacher.id == allocation2.teacher.id) &&
          !(allocation1.class_group.id == allocation2.class_group.id))

/-- The slot test of `mutate_ideal_spot`'s scan, in source order: the day
check, the room check, then — for every cell of the block — membership in
`free` and `valid_teacher_group_row`. -/
def mutate_ok (data : TimetableData) (matrix : ℕ → ℕ → Option ℕ) (cols : ℕ)
    (free : List (ℕ × ℕ)) (allocation_index : ℕ) (allocation : ClassAllocation)
    (start_field : ℕ × ℕ) : Bool :=
  !(spans_midnight start_field.1 allocation.duration) &&
    allocation.possible_classrooms.contains start_field.2 &&
    (List.range allocation.duration).all (fun i =>
      free.contains (i + start_field.1, start_field.2) &&
        valid_teacher_group_row matrix cols data allocation_index (i + start_field.1))

/-- `mutate_ideal_spot(matrix, data, allocation_index, free, filled,
groups_empty_space, teachers_empty_space)`.  The scan advances one free
entry at a time, so it selects the first entry passing `mutate_ok`; on
success the old placement is undone (cells freed, matrix cleared, one
occurrence of each old row removed from the two empty-space dicts) and the
new block is installed. -/
def mutate_ideal_spot (data : TimetableData) (cols : ℕ) (st : OptState)
    (allocation_index : ℕ) : OptState :=
  match alist_lookup st.filled allocation_index with
  | none => st
  | some fields =>
    let allocation := allocAt data allocation_index
    match st.free.find?
        (mutate_ok data st.matrix cols st.free allocation_index allocation) with
    | none => st
    | some start_field =>
      let filled1 := alist_pop st.filled allocation_index
      let free1 := st.free ++ fields
      let matrix1 := fields.foldl (fun m f => matrix_set m f.1 f.2 none) st.matrix
      let ges1 := fields.foldl
        (fun d f => alist_remove_first d allocation.class_group.id f.1)
        st.groups_empty_space
      let tes1 := fields.foldl
        (fun d f => alist_remove_first d allocation.teacher.id f.1)
        st.teachers_empty_space
      let ges2 := (List.range allocation.duration).foldl
        (fun d i => alist_append d allocation.class_group.id (i + start_field.1)) ges1
      let filled2 := (List.range allocation.duration).foldl
        (fun d i => alist_append d allocation_index (i + start_field.1, start_field.2))
        filled1
      let free2 := (List.range allocation.duration).foldl
        (fun l i => l.erase (i + start_field.1, start_field.2)) free1
      let matrix2 := (List.range allocation.duration).foldl
        (fun m i => matrix_set m (i + start_field.1) start_field.2
          (some allocation_index)) matrix1
      let tes2 := (List.range allocation.duration).foldl
        (fun d i => alist_append d allocation.teacher.id (i + start_field.1)) tes1
      ⟨matrix2, free2, filled2, ges2, tes2⟩

/-! ### Initial placement (`initial_population`) -/

/-- The block-free check of `initial_population`
(`for i in range(1, duration): (i + start_time, col) in free`). -/
def init_block_free (freeAll : List (ℕ × ℕ)) (allocation : ClassAllocation)
    (start_field : ℕ × ℕ) : Bool :=
  (List.range' 1 (allocation.duration - 1)).all (fun i =>
    freeAll.contains (i + start_field.1, start_field.2))

/-- The three slot conditions of the claim, for one free entry: the day
check, room admissibility, and all `duration` cells free. -/
def init_ok (freeAll : List (ℕ × ℕ)) (allocation : ClassAllocation)
    (start_field : ℕ × ℕ) : Bool :=
  !(spans_midnight start_field.1 allocation.duration) &&
    allocation.possible_classrooms.contains start_field.2 &&
    (List.range allocation.duration).all (fun i =>
      freeAll.contains (i + start_field.1, start_field.2))

/-- The `while True` scan of `initial_population`, faithful to its index
arithmetic: a day-check failure advances by one; a block-check failure
advances by one **and then still runs the room check on the same entry**,
which on failure advances again (`continue`), so the next free entry is
skipped unexamined; a room-check failure alone advances by one; otherwise
the entry is chosen. -/
def init_find_slot (allocation : ClassAllocation) (freeAll : List (ℕ × ℕ)) :
    List (ℕ × ℕ) → Option (ℕ × ℕ)
  | [] => none
  | start_field :: rest =>
    if spans_midnight start_field.1 allocation.duration then
      init_find_slot allocation freeAll rest
    else if !(init_block_free freeAll allocation start_field) then
      if !(allocation.possible_classrooms.contains start_field.2) then
        match rest with
        | [] => none
        | _ :: rest2 => init_find_slot allocation freeAll rest2
      else
        init_find_slot allocation freeAll rest
    else if !(allocation.possible_classrooms.contains start_field.2) then
      init_find_slot allocation freeAll rest
    else
      some start_field

/-- Processing of one allocation by `initial_population`: scan the free
list and, on success, register the block in the bookkeeping structures
(the matrix is written only at the end of `initial_population`). -/
def place_allocation (data : TimetableData) (index : ℕ) (st : OptState) : OptState :=
  let allocation := allocAt data index
  match init_find_slot allocation st.free st.free with
  | none => st
  | some start_field =>
    let ges1 := (List.range allocation.duration).foldl
      (fun d i => alist_append d allocation.class_group.id (i + start_field.1))
      st.groups_empty_space
    let filled1 := (List.range allocation.duration).foldl
      (fun d i => alist_append d index (i + start_field.1, start_field.2)) st.filled
    let free1 := (List.range allocation.duration).foldl
      (fun l i => l.erase (i + start_field.1, start_field.2)) st.free
    let tes1 := (List.range allocation.duration).foldl
      (fun d i => alist_append d allocation.teacher.id (i + start_field.1))
      st.teachers_empty_space
    { st with
        groups_empty_space := ges1
        filled := filled1
        free := free1
        teachers_empty_space := tes1 }

/-- The final loop of `initial_population`: write every placed block into
the matrix. -/
def fill_matrix (st : OptState) : OptState :=
  let m := st.filled.foldl
    (fun m p => p.2.foldl (fun m f => matrix_set m f.1 f.2 (some p.1)) m)
    st.matrix
  { st with matrix := m }

/-- `initial_population(data, matrix, free, filled, groups_empty_space,
teachers_empty_space)`: place the allocations in index order, then fill
the matrix from `filled`. -/
def initial_population (data : TimetableData) (st : OptState) : OptState :=
  fill_matrix
    ((List.range data.class_allocations.length).foldl
      (fun st index => place_allocation data index st) st)

/-! ## The data-model invariants (spec §3, claims C2 and C10) -/

/-- The `duration` cells `(s, c), (s+1, c), …` of a placed block, in the
order the placement loops write them. -/
def block_cells (s c d : ℕ) : List (ℕ × ℕ) :=
  (List.range d).map (fun i => (i + s, c))

/-- All cells of all placed blocks. -/
def placed_cells (filled : List (ℕ × List (ℕ × ℕ))) : List (ℕ × ℕ) :=
  filled.flatMap Prod.snd

/-- The multiset of rows where some placed allocation of group `g`
resides. -/
def occupied_rows_group (data : TimetableData) (filled : List (ℕ × List (ℕ × ℕ)))
    (g : ℕ) : Multiset ℕ :=
  (((filled.filter (fun p => (allocAt data p.1).class_group.id == g)).flatMap
    (fun p => p.2.map Prod.fst) : List ℕ) : Multiset ℕ)

/-- The multiset of rows where some placed allocation of teacher `t`
resides. -/
def occupied_rows_teacher (data : TimetableData) (filled : List (ℕ × List (ℕ × ℕ)))
    (t : ℕ) : Multiset ℕ :=
  (((filled.filter (fun p => (allocAt data p.1).teacher.id == t)).flatMap
    (fun p => p.2.map Prod.fst) : List ℕ) : Multiset ℕ)

/-- Invariants 1–5 of the data model, together with the dict
well-formedness (unique keys) that Python dicts provide by construction:

1. `matrix_iff` (both directions of matrix/filled consistency — a cell
   holds `a` exactly when it belongs to `a`'s placement; with
   `partition`, such a cell is also not free);
2. `blocks` — every placed list is `duration` consecutive rows of one
   column, within one day;
3. `partition` — `free` and the placed cells are a disjoint partition of
   the 60 × cols grid (multiset equality against the duplicate-free grid);
4. `ges_spec` / 5. `tes_spec` — the empty-space dicts hold exactly the
   multisets of occupied rows per group / teacher. -/
structure Inv (data : TimetableData) (cols : ℕ) (st : OptState) : Prop where
  filled_keys : (st.filled.map Prod.fst).Nodup
  ges_keys : (st.groups_empty_space.map Prod.fst).Nodup
  tes_keys : (st.teachers_empty_space.map Prod.fst).Nodup
  matrix_iff : ∀ r c a, st.matrix r c = some a ↔
    ∃ l, alist_lookup st.filled a = some l ∧ (r, c) ∈ l
  blocks : ∀ a l, alist_lookup st.filled a = some l →
    ∃ s c, l = block_cells s c (allocAt data a).duration ∧
      ((allocAt data a).duration > 0 →
        (s + ((allocAt data a).duration - 1)) / 12 = s / 12)
  partition : (st.free : Multiset (ℕ × ℕ)) +
      (placed_cells st.filled : Multiset (ℕ × ℕ)) =
    (grid_cells cols : Multiset (ℕ × ℕ))
  ges_spec : ∀ g, ((lookup_list st.groups_empty_space g : List ℕ) : Multiset ℕ) =
    occupied_rows_group data st.filled g
  tes_spec : ∀ t, ((lookup_list st.teachers_empty_space t : List ℕ) : Multiset ℕ) =
    occupied_rows_teacher data st.filled t

/-! ## Claim C6: the initial-placement scan is not first-fit -/

/-- A minimal allocation for the placement scenarios: duration `d`,
admissible rooms `rooms`, teacher id and class-group id both `tg`. -/
def c6_alloc (d : ℕ) (rooms : List ℕ) (tg : ℕ) : ClassAllocation :=
  { id := 0
    class_group := { id := tg, name := "" }
    subject := default
    teacher := { id := tg, full_name := "" }
    duration := d
    possible_classrooms := rooms }

/-- Four allocations over two rooms.  The first three fill rows 0-9 of
column 0, rows 12-14 of column 0 and rows 0-9 of column 1; the fourth has
duration 13, for which the day check `start % 12 > (start + 12) % 12`
never fires. -/
def c6_data : TimetableData :=
  { class_allocations := [c6_alloc 10 [0] 1, c6_alloc 3 [0] 2,
      c6_alloc 10 [1] 3, c6_alloc 13 [1] 4]
    classrooms := []
    teachers := []
    class_groups := []
    schedules := []
    teacher_schedules := none }

/-- The fresh state `set_up(2)` produces. -/
def c6_init : OptState :=
  { matrix := (set_up 2).1
    free := (set_up 2).2
    filled := []
    groups_empty_space := []
    teachers_empty_space := [] }

/-- The state of `initial_population` after its loop has processed
allocations 0, 1 and 2 of `c6_data`. -/
def c6_st3 : OptState :=
  (List.range 3).foldl (fun st index => place_allocation c6_data index st) c6_init

/-- Free lists in which, within each day and column, the free rows are
upward closed: everything in the same day at or after a free cell is
free.  `set_up`'s full grid has this property. -/
def day_suffix (free : List (ℕ × ℕ)) : Prop :=
  ∀ q ∈ free, ∀ r' : ℕ, q.1 < r' → r' / 12 = q.1 / 12 → (r', q.2) ∈ free

/-- Data and state for the `mutate_new_rows_disjoint` witness: one
duration-1 allocation placed at `(0, 0)` on the one-column grid, with
rows 1-11 of the day still free, so the relocation scan succeeds. -/
def c10_data : TimetableData :=
  { class_allocations := [c6_alloc 1 [0] 1]
    classrooms := []
    teachers := []
    class_groups := []
    schedules := []
    teacher_schedules := none }

def c10_st : OptState :=
  { matrix := fun r c => if r = 0 ∧ c = 0 then some 0 else none
    free := (grid_cells 1).erase (0, 0)
    filled := [(0, [(0, 0)])]
    groups_empty_space := [(1, [0])]
    teachers_empty_space := [(1, [0])] }

/-! ## The annealing phase (`simulated_hardening`, claims C1 and C9) -/

/-- The acceptance test `new_cost < curr_cost or rt <= exp((curr_cost -
new_cost) / t)`.  The only randomness/float content is the second
disjunct: for `new_cost = curr_cost`, `exp(0) = 1 >= rt` always accepts
(rt is uniform on [0,1)); for `new_cost > curr_cost`, `exp` of the
negative argument lies strictly between 0 and 1, so either outcome is
realisable and the pre-sampled Boolean `o` resolves it. -/
def anneal_accept (curr newc : ℚ) (o : Bool) : Bool :=
  decide (newc < curr) || decide (newc = curr) || o

/-- One iteration of `simulated_hardening`'s loop, over the pair of the
LOCAL bindings (`matrix`, `free`, ... inside the function) and the
CALLER's objects (`optimize_timetable`'s locals), plus the
still-aliased flag and `curr_cost`.  While the local names alias the
caller's objects, the in-place mutations of `mutate_ideal_spot` are
visible through both; on rejection the line
`matrix = copy.deepcopy(old_matrix)` (and its four siblings) rebinds the
LOCAL names to fresh copies of the snapshot, so the caller's objects
keep the state they had at that moment and stop being affected ever
after. -/
def anneal_step (data : TimetableData) (cols : ℕ) (idxs : List ℕ) (o : Bool) :
    OptState × OptState × Bool × ℚ → OptState × OptState × Bool × ℚ
  | (loc, cal, aliased, curr) =>
    let loc1 := idxs.foldl (fun st i => mutate_ideal_spot data cols st i) loc
    let cal1 := if aliased then loc1 else cal
    let newc := (empty_space_groups_cost loc1.groups_empty_space).2.2
    match anneal_accept curr newc o with
    | true => (loc1, cal1, aliased, newc)
    | false => (loc, cal1, false, curr)

/-- `simulated_hardening` (`iter_count = 2500` in the source) over
pre-sampled oracles: `idxO i` is the list of `num_allocations // 4`
allocation indices drawn in iteration `i`, `accO i` resolves the
`rt <= exp(...)` test when `new_cost > curr_cost`.  Returns (final local
state, caller's objects, aliased flag, current cost). -/
def simulated_hardening (data : TimetableData) (cols : ℕ)
    (idxO : ℕ → List ℕ) (accO : ℕ → Bool) (iters : ℕ) (st : OptState) :
    OptState × OptState × Bool × ℚ :=
  (List.range iters).foldl (fun s i => anneal_step data cols (idxO i) (accO i) s)
    (st, st, true, (empty_space_groups_cost st.groups_empty_space).2.2)

/-! ### Claim C1: the concrete rejected-mutation scenario -/

def c1_alloc (tid : ℕ) : ClassAllocation :=
  { id := 0
    class_group := { id := 1, name := "" }
    subject := default
    teacher := { id := tid, full_name := "" }
    duration := 1
    possible_classrooms := [0] }

def c1_data : TimetableData :=
  { class_allocations := [c1_alloc 1, c1_alloc 2, c1_alloc 3, c1_alloc 4]
    classrooms := []
    teachers := []
    class_groups := []
    schedules := []
    teacher_schedules := none }

/-- Four duration-1 allocations of one class group placed in rows 0-3 of
the single column; relocating allocation 1 to the first free slot `(4, 0)`
opens a gap at row 1 and raises the group soft cost from 0 to 1, so with
`accO = false` every iteration rejects its mutation. -/
def c1_st0 : OptState :=
  { matrix := fun r c => if c = 0 ∧ r < 4 then some r else none
    free := (grid_cells 1).filter (fun q => decide (4 ≤ q.1))
    filled := [(0, [(0, 0)]), (1, [(1, 0)]), (2, [(2, 0)]), (3, [(3, 0)])]
    groups_empty_space := [(1, [0, 1, 2, 3])]
    teachers_empty_space := [(1, [0]), (2, [1]), (3, [2]), (4, [3])] }

def c1_mut : OptState := mutate_ideal_spot c1_data 1 c1_st0 1

def c1_S1 : OptState × OptState × Bool × ℚ :=
  (c1_st0, c1_mut, false, (empty_space_groups_cost c1_st0.groups_empty_space).2.2)

/-! ## The evolutionary phase (`evolutionary_algorithm`, claims C5 and C9) -/

/-- `sorted(cost_allocations.items(), key=itemgetter(1), reverse=True)`:
the per-allocation cost pairs in dict order `0..n-1`, stably sorted by
descending cost (Python's sort is stable, and `insertionSort` with the
non-strict `q.2 ≤ p.2` keeps earlier equal-cost entries first too). -/
def costs_list (data : TimetableData) (hc : HardCost) : List (ℕ × ℕ) :=
  ((List.range data.class_allocations.length).map
    (fun i => (i, hc.cost_allocation i))).insertionSort (fun p q => q.2 ≤ p.2)

/-- The mutation pass `for i in range(len(costs_list) // 4): if
random.uniform(0, 1) < sigma and costs_list[i][1] != 0:
mutate_ideal_spot(...)`; the float draw `u < sigma` is pre-sampled as
the Boolean oracle `mo i` (σ only scales these draws, so Schwefel's
adaptation of σ is absorbed by the oracle). -/
def evo_mutation_pass (data : TimetableData) (cols : ℕ) (cl : List (ℕ × ℕ))
    (mo : ℕ → Bool) (st : OptState) : OptState :=
  (List.range (cl.length / 4)).foldl
    (fun s i =>
      if mo i && ((cl.getD i (0, 0)).2 != 0) then
        mutate_ideal_spot data cols s (cl.getD i (0, 0)).1
      else s) st

/-- One run's `while stagnation < max_stagnation` loop, fuelled (the
source's loop has no intrinsic bound).  Carries Python's function-local
`loss_after` as an `Option`, `none` while the name is still unbound.
Returns `none` if the fuel runs out before the loop exits. -/
def evo_while (data : TimetableData) (rows cols : ℕ) (mo : ℕ → ℕ → Bool) :
    ℕ → ℕ → ℕ → OptState → Option ℕ → Option (OptState × Option ℕ)
  | 0, _, _, _, _ => none
  | fuel + 1, stagnation, t, st, loss_after =>
    if 200 ≤ stagnation then some (st, loss_after)
    else
      let hc := hard_constraints_cost rows cols st.matrix data
      let loss_before := hard_total hc
      if loss_before = 0 ∧ check_hard_constraints rows cols st.matrix data = 0 then
        some (st, loss_after)
      else
        let cl := costs_list data hc
        let st1 := evo_mutation_pass data cols cl (mo t) st
        let loss_after1 := hard_total (hard_constraints_cost rows cols st1.matrix data)
        let stagnation1 := if loss_after1 < loss_before then 0 else stagnation + 1
        evo_while data rows cols mo fuel stagnation1 (t + 1) st1 (some loss_after1)

/-- The observable outcome of `evolutionary_algorithm`: normal return,
the `NameError` that `print(f'Final cost: {loss_after}')` (line 362)
raises when a run's loop broke out on its very first iteration with
`loss_after` never assigned, or fuel exhaustion of the model. -/
inductive EvoOutcome where
  | ok (st : OptState)
  | nameError
  | fuelOut

/-- The runs of `for run in range(run_times)`; after each run's loop the
source reads `loss_after` at line 362. -/
def evo_runs (data : TimetableData) (rows cols : ℕ) (mo : ℕ → ℕ → ℕ → Bool)
    (fuel : ℕ) : List ℕ → OptState → Option ℕ → EvoOutcome
  | [], st, _ => .ok st
  | run :: rest, st, la =>
    match evo_while data rows cols (mo run) fuel 0 0 st la with
    | none => .fuelOut
    | some (st1, la1) =>
      match la1 with
      | none => .nameError
      | some _ => evo_runs data rows cols mo fuel rest st1 la1

/-- `evolutionary_algorithm` with `run_times = 5`, over the pre-sampled
mutation oracle `mo run t i`. -/
def evolutionary_algorithm (data : TimetableData) (rows cols : ℕ)
    (mo : ℕ → ℕ → ℕ → Bool) (fuel : ℕ) (st : OptState) : EvoOutcome :=
  evo_runs data rows cols mo fuel (List.range 5) st none

/-! ### Claim C5: the trivial single-class input -/

/-- The claim's trivial input: one group, one teacher, one subject
requiring space type 1, one non-blocked room of type 1 (under dict key
0, so the stored key coincides with the matrix column), one duration-1
allocation. -/
def c5_subject : Subject :=
  { id := 0, name := "", required_space_type := { id := 1, name := "" }, course_id := 0 }

def c5_alloc_raw : ClassAllocation :=
  { id := 0
    class_group := { id := 1, name := "" }
    subject := c5_subject
    teacher := { id := 1, full_name := "" }
    duration := 1
    possible_classrooms := [] }

def c5_room : Classroom :=
  { id := 0, name := "", floor := 0, capacity := 0, blocked := false,
    space_type := { id := 1, name := "" } }

def c5_raw : TimetableData :=
  { class_allocations := [c5_alloc_raw]
    classrooms := [(0, c5_room)]
    teachers := [(1, { id := 1, full_name := "" })]
    class_groups := [(1, { id := 1, name := "" })]
    schedules := []
    teacher_schedules := none }

def c5_loaded : TimetableData × List (ℕ × List ℕ) × List (ℕ × List ℕ) :=
  load_data_from_database c5_raw [] []

def c5_data : TimetableData := c5_loaded.1

/-- The state `optimize_timetable` hands to `initial_population`:
`set_up(1)` plus the dicts initialised by the preprocessor. -/
def c5_st0 : OptState :=
  { matrix := (set_up 1).1
    free := (set_up 1).2
    filled := []
    groups_empty_space := c5_loaded.2.2
    teachers_empty_space := c5_loaded.2.1 }

def c5_st1 : OptState := initial_population c5_data c5_st0

/-- One allocation whose only admissible room is column 1 of a
one-column grid, placed at `(0, 0)`: its hard cost is permanently 1, so
the evolutionary loop exits by stagnation and returns normally. -/
def c9_data : TimetableData :=
  { class_allocations := [c6_alloc 1 [1] 1]
    classrooms := []
    teachers := []
    class_groups := []
    schedules := []
    teacher_schedules := none }

def c9_st : OptState :=
  { matrix := fun r c => if r = 0 ∧ c = 0 then some 0 else none
    free := (grid_cells 1).erase (0, 0)
    filled := [(0, [(0, 0)])]
    groups_empty_space := [(1, [0])]
    teachers_empty_space := [(1, [0])] }

/-! ## Theorems -/

theorem scanned_pairs_eq_consec_dropLast (times : List ℕ) :
    scanned_pairs times = consec_pairs times.dropLast := by
  apply List.ext_getElem
  · simp only [scanned_pairs, consec_pairs, List.length_map, List.length_range',
      List.length_zip, List.length_tail, List.length_dropLast]
    omega
  · intro i h1 h2
    have hi : i < times.length - 1 - 1 := by
      simpa [scanned_pairs] using h1
    simp only [scanned_pairs, consec_pairs, List.getElem_map, List.getElem_range',
      List.getElem_zip, List.getElem_dropLast, List.getElem_tail]
    rw [List.getD_eq_getElem _ _ (by omega), List.getD_eq_getElem _ _ (by omega)]
    congr 2 <;> omega

theorem foldl_soft_fst (f : ℕ × List ℕ → ℕ) (g : ℕ × ℕ → ℕ × List ℕ → ℕ)
    (l : List (ℕ × List ℕ)) (acc : ℕ × ℕ) :
    (l.foldl (fun a e => (a.1 + f e, g a e)) acc).1 = acc.1 + (l.map f).sum := by
  induction l generalizing acc with
  | nil => simp
  | cons e t ih => simp [ih]; ring

theorem groups_cost_total (ges : List (ℕ × List ℕ)) :
    (empty_space_groups_cost ges).1 =
      (ges.map (fun e => (((sort_times e.2).dropLast.zip (sort_times e.2).dropLast.tail).map pair_gap).sum)).sum := by
  unfold empty_space_groups_cost
  by_cases h : ges.length = 0
  · rw [List.length_eq_zero] at h
    subst h; simp
  · simp only [h, if_false]
    have := foldl_soft_fst (fun e => entry_cost (sort_times e.2))
      (fun a e =>
        (List.range 5).foldl
          (fun m day =>
            if m < entry_per_day (sort_times e.2) day then entry_per_day (sort_times e.2) day else m)
          a.2) ges (0, 0)
    simp only [Nat.zero_add] at this
    rw [this]
    simp only [entry_cost, scanned_pairs_eq_consec_dropLast, consec_pairs]

theorem teachers_cost_total (tes : List (ℕ × List ℕ)) :
    (empty_space_teachers_cost tes).1 =
      (tes.map (fun e => (((sort_times e.2).dropLast.zip (sort_times e.2).dropLast.tail).map pair_gap).sum)).sum := by
  unfold empty_space_teachers_cost
  by_cases h : tes.length = 0
  · rw [List.length_eq_zero] at h
    subst h; simp
  · simp only [h, if_false]
    have := foldl_soft_fst (fun e => entry_cost (sort_times e.2))
      (fun a e =>
        (List.range 5).foldl
          (fun m day =>
            if m < entry_per_day (sort_times e.2) day then entry_per_day (sort_times e.2) day else m)
          a.2) tes (0, 0)
    simp only [Nat.zero_add] at this
    rw [this]
    simp only [entry_cost, scanned_pairs_eq_consec_dropLast, consec_pairs]

/-- C8 (counterexample): for the single group occupying rows 0, 2, 3 of one
day, the only same-day gap (row 1) touches the first occupied slot of the
sorted list, yet it contributes 1 to the total, the max-per-day and the
average — refuting the claim that gaps touching the first occupied slot
contribute nothing.  The teacher-side scan behaves identically. -/
theorem empty_space_cost_counts_gap_at_first_slot :
    (empty_space_groups_cost [(1, [0, 2, 3])]).1 = 1 ∧
      (empty_space_groups_cost [(1, [0, 2, 3])]).2.1 = 1 ∧
      (empty_space_teachers_cost [(7, [0, 2, 3])]).1 = 1 ∧
      (empty_space_teachers_cost [(7, [0, 2, 3])]).2.1 = 1 := by
  refine ⟨by decide, by decide, by decide, by decide⟩

/-- C8 (amended): in `empty_space_groups_cost` and
`empty_space_teachers_cost`, the scan over the sorted occupied-row list
`times` visits exactly the consecutive pairs of `times` with its **last**
element removed.  Hence only a same-day gap between the final two occupied
slots of the sorted list is ignored; a gap that touches the first occupied
slot is counted (it is the left end of the first scanned pair), except when
the list has at most two elements. -/
theorem empty_space_cost_drops_only_last_pair (d : List (ℕ × List ℕ)) :
    (∀ times : List ℕ, scanned_pairs times = (times.dropLast).zip (times.dropLast).tail) ∧
      (empty_space_groups_cost d).1 =
        (d.map (fun e => (((sort_times e.2).dropLast.zip (sort_times e.2).dropLast.tail).map pair_gap).sum)).sum ∧
      (empty_space_teachers_cost d).1 =
        (d.map (fun e => (((sort_times e.2).dropLast.zip (sort_times e.2).dropLast.tail).map pair_gap).sum)).sum := by
  refine ⟨fun times => ?_, groups_cost_total d, teachers_cost_total d⟩
  rw [scanned_pairs_eq_consec_dropLast, consec_pairs]

/-- Folding a step that adds `δ x` to a projected counter adds the sum of
the `δ`s. -/
theorem foldl_add_proj {α σ : Type _} (proj : σ → ℕ) (step : σ → α → σ) (δ : α → ℕ)
    (h : ∀ s x, proj (step s x) = proj s + δ x) :
    ∀ (l : List α) (s : σ), proj (l.foldl step s) = proj s + (l.map δ).sum := by
  intro l
  induction l with
  | nil => intro s; simp
  | cons x t ih =>
    intro s
    simp only [List.foldl_cons, List.map_cons, List.sum_cons, ih, h]
    omega

theorem hard_cell_step_teacher (data : TimetableData) (matrix : ℕ → ℕ → Option ℕ)
    (cols i j : ℕ) (acc : HardCost) :
    (hard_cell_step data matrix cols i j acc).cost_teacher =
      acc.cost_teacher +
        ((List.range' (j + 1) (cols - (j + 1))).map
          (fun k => teacher_conflict data matrix i j k)).sum := by
  unfold hard_cell_step
  cases hij : matrix i j with
  | none =>
    simp [teacher_conflict, hij, List.map_const', List.sum_replicate]
  | some field =>
    rw [foldl_add_proj HardCost.cost_teacher _
      (fun k => teacher_conflict data matrix i j k) ?_]
    · congr 1
      split_ifs <;> simp
    · intro s k
      cases hik : matrix i k with
      | none => simp [teacher_conflict, hij, hik]
      | some g =>
        simp only [teacher_conflict, hij, hik]
        split_ifs with h1 h2 h2 <;>
          simp_all [beq_iff_eq]

theorem hard_cell_step_group (data : TimetableData) (matrix : ℕ → ℕ → Option ℕ)
    (cols i j : ℕ) (acc : HardCost) :
    (hard_cell_step data matrix cols i j acc).cost_group =
      acc.cost_group +
        ((List.range' (j + 1) (cols - (j + 1))).map
          (fun k => group_conflict data matrix i j k)).sum := by
  unfold hard_cell_step
  cases hij : matrix i j with
  | none =>
    simp [group_conflict, hij, List.map_const', List.sum_replicate]
  | some field =>
    rw [foldl_add_proj HardCost.cost_group _
      (fun k => group_conflict data matrix i j k) ?_]
    · congr 1
      split_ifs <;> simp
    · intro s k
      cases hik : matrix i k with
      | none => simp [group_conflict, hij, hik]
      | some g =>
        simp only [group_conflict, hij, hik]
        split_ifs with h1 h2 h2 <;>
          simp_all [beq_iff_eq]

theorem hard_cell_step_classrooms (data : TimetableData) (matrix : ℕ → ℕ → Option ℕ)
    (cols i j : ℕ) (acc : HardCost) :
    (hard_cell_step data matrix cols i j acc).cost_classrooms =
      acc.cost_classrooms + room_viol data matrix i j := by
  unfold hard_cell_step
  cases hij : matrix i j with
  | none => simp [room_viol, hij]
  | some field =>
    rw [foldl_add_proj HardCost.cost_classrooms _ (fun _ => 0) ?_]
    · simp only [List.map_const', List.sum_replicate, smul_zero, Nat.add_zero,
        room_viol, hij]
      split_ifs <;> simp
    · intro s k
      cases hik : matrix i k with
      | none => simp [hik]
      | some g =>
        simp only [hik]
        split_ifs <;> simp

theorem hard_cell_step_availability (data : TimetableData) (matrix : ℕ → ℕ → Option ℕ)
    (cols i j : ℕ) (acc : HardCost) :
    (hard_cell_step data matrix cols i j acc).cost_teacher_availability =
      acc.cost_teacher_availability + avail_viol data matrix i j := by
  unfold hard_cell_step
  cases hij : matrix i j with
  | none => simp [avail_viol, hij]
  | some field =>
    rw [foldl_add_proj HardCost.cost_teacher_availability _ (fun _ => 0) ?_]
    · simp only [List.map_const', List.sum_replicate, smul_zero, Nat.add_zero,
        avail_viol, hij]
      split_ifs <;> simp
    · intro s k
      cases hik : matrix i k with
      | none => simp [hik]
      | some g =>
        simp only [hik]
        split_ifs <;> simp

theorem bump_apply (f : ℕ → ℕ) (a x : ℕ) :
    bump f a x = f x + (if x = a then 1 else 0) := by
  unfold bump
  split_ifs <;> simp

theorem hard_cell_step_alloc (data : TimetableData) (matrix : ℕ → ℕ → Option ℕ)
    (cols i j : ℕ) (acc : HardCost) (a : ℕ) :
    (hard_cell_step data matrix cols i j acc).cost_allocation a =
      acc.cost_allocation a + cell_alloc_contrib data matrix cols i j a := by
  unfold hard_cell_step
  cases hij : matrix i j with
  | none => simp [cell_alloc_contrib, hij]
  | some field =>
    refine Eq.trans (foldl_add_proj (fun s : HardCost => s.cost_allocation a) _
      (fun k => if field = a then
        teacher_conflict data matrix i j k + group_conflict data matrix i j k else 0) ?_ _ _) ?_
    case refine_2 =>
      by_cases hfa : field = a
      · subst hfa
        simp only [cell_alloc_contrib, hij, if_pos rfl, room_viol, avail_viol]
        split_ifs <;> simp [bump_apply] <;> omega
      · have hfa' : a ≠ field := fun h => hfa h.symm
        have : ¬(matrix i j = some a) := by simp [hij, hfa]
        simp only [cell_alloc_contrib, if_neg this, if_neg hfa]
        split_ifs <;> simp [bump_apply, hfa']
    · intro s k
      by_cases hfa : field = a
      · subst hfa
        cases hik : matrix i k with
        | none => simp [teacher_conflict, group_conflict, hij, hik]
        | some g =>
          simp only [teacher_conflict, group_conflict, hij, hik, if_pos rfl]
          split_ifs with h1 h2 h2 <;>
            simp_all [beq_iff_eq, bump_apply]
      · have hfa' : a ≠ field := fun h => hfa h.symm
        cases hik : matrix i k with
        | none => simp [teacher_conflict, group_conflict, hij, hik, hfa]
        | some g =>
          simp only [hik, if_neg hfa]
          split_ifs <;> simp [bump_apply, hfa']

theorem map_sum_eq_zero_iff {α : Type _} (l : List α) (f : α → ℕ) :
    (l.map f).sum = 0 ↔ ∀ x ∈ l, f x = 0 := by
  rw [List.sum_eq_zero_iff]
  simp

theorem hard_cost_teacher_eq (rows cols : ℕ) (matrix : ℕ → ℕ → Option ℕ)
    (data : TimetableData) :
    (hard_constraints_cost rows cols matrix data).cost_teacher =
      ((List.range rows).map (fun i => ((List.range cols).map (fun j =>
        ((List.range' (j + 1) (cols - (j + 1))).map
          (fun k => teacher_conflict data matrix i j k)).sum)).sum)).sum := by
  unfold hard_constraints_cost
  refine Eq.trans (foldl_add_proj HardCost.cost_teacher
    (fun acc i => (List.range cols).foldl
      (fun acc j => hard_cell_step data matrix cols i j acc) acc)
    (fun i => ((List.range cols).map (fun j =>
      ((List.range' (j + 1) (cols - (j + 1))).map
        (fun k => teacher_conflict data matrix i j k)).sum)).sum)
    (fun s i => foldl_add_proj HardCost.cost_teacher _ _
      (fun s j => hard_cell_step_teacher data matrix cols i j s) (List.range cols) s)
    (List.range rows) _) ?_
  simp

theorem hard_cost_group_eq (rows cols : ℕ) (matrix : ℕ → ℕ → Option ℕ)
    (data : TimetableData) :
    (hard_constraints_cost rows cols matrix data).cost_group =
      ((List.range rows).map (fun i => ((List.range cols).map (fun j =>
        ((List.range' (j + 1) (cols - (j + 1))).map
          (fun k => group_conflict data matrix i j k)).sum)).sum)).sum := by
  unfold hard_constraints_cost
  refine Eq.trans (foldl_add_proj HardCost.cost_group
    (fun acc i => (List.range cols).foldl
      (fun acc j => hard_cell_step data matrix cols i j acc) acc)
    (fun i => ((List.range cols).map (fun j =>
      ((List.range' (j + 1) (cols - (j + 1))).map
        (fun k => group_conflict data matrix i j k)).sum)).sum)
    (fun s i => foldl_add_proj HardCost.cost_group _ _
      (fun s j => hard_cell_step_group data matrix cols i j s) (List.range cols) s)
    (List.range rows) _) ?_
  simp

theorem hard_cost_classrooms_eq (rows cols : ℕ) (matrix : ℕ → ℕ → Option ℕ)
    (data : TimetableData) :
    (hard_constraints_cost rows cols matrix data).cost_classrooms =
      ((List.range rows).map (fun i => ((List.range cols).map (fun j =>
        room_viol data matrix i j)).sum)).sum := by
  unfold hard_constraints_cost
  refine Eq.trans (foldl_add_proj HardCost.cost_classrooms
    (fun acc i => (List.range cols).foldl
      (fun acc j => hard_cell_step data matrix cols i j acc) acc)
    (fun i => ((List.range cols).map (fun j => room_viol data matrix i j)).sum)
    (fun s i => foldl_add_proj HardCost.cost_classrooms _ _
      (fun s j => hard_cell_step_classrooms data matrix cols i j s) (List.range cols) s)
    (List.range rows) _) ?_
  simp

theorem hard_cost_availability_eq (rows cols : ℕ) (matrix : ℕ → ℕ → Option ℕ)
    (data : TimetableData) :
    (hard_constraints_cost rows cols matrix data).cost_teacher_availability =
      ((List.range rows).map (fun i => ((List.range cols).map (fun j =>
        avail_viol data matrix i j)).sum)).sum := by
  unfold hard_constraints_cost
  refine Eq.trans (foldl_add_proj HardCost.cost_teacher_availability
    (fun acc i => (List.range cols).foldl
      (fun acc j => hard_cell_step data matrix cols i j acc) acc)
    (fun i => ((List.range cols).map (fun j => avail_viol data matrix i j)).sum)
    (fun s i => foldl_add_proj HardCost.cost_teacher_availability _ _
      (fun s j => hard_cell_step_availability data matrix cols i j s) (List.range cols) s)
    (List.range rows) _) ?_
  simp

theorem check_cell_body (data : TimetableData) (matrix : ℕ → ℕ → Option ℕ)
    (cols i j : ℕ) (acc : ℕ) :
    (match matrix i j with
      | none => acc
      | some field =>
        let allocation1 := allocAt data field
        let acc1 := if allocation1.possible_classrooms.contains j then acc else acc + 1
        let acc2 := if availability_violation data allocation1 i then acc1 + 1 else acc1
        (List.range cols).foldl
          (fun acc3 k =>
            if k == j then acc3
            else
              match matrix i k with
              | none => acc3
              | some next_field =>
                let allocation2 := allocAt data next_field
                let acc4 :=
                  if allocation1.teacher.id == allocation2.teacher.id then acc3 + 1 else acc3
                if allocation1.class_group.id == allocation2.class_group.id then acc4 + 1
                else acc4)
          acc2) = acc + check_cell data matrix cols i j := by
  cases hij : matrix i j with
  | none =>
    simp [check_cell, room_viol, avail_viol, teacher_conflict, group_conflict, hij,
      ite_self, List.map_const', List.sum_replicate]
  | some field =>
    refine Eq.trans (foldl_add_proj (fun n : ℕ => n) _
      (fun k => if k = j then 0
        else teacher_conflict data matrix i j k + group_conflict data matrix i j k) ?_ _ _) ?_
    · intro s k
      by_cases hkj : k = j
      · simp [hkj]
      · have hkj' : (k == j) = false := by simp [hkj]
        simp only [hkj', Bool.false_eq_true, if_false, if_neg hkj]
        cases hik : matrix i k with
        | none => simp [teacher_conflict, group_conflict, hij, hik]
        | some g =>
          simp only [teacher_conflict, group_conflict, hij, hik]
          split_ifs with h1 h2 h2 <;> simp_all [beq_iff_eq]
    · simp only [check_cell, room_viol, avail_viol, hij]
      split_ifs <;> omega

theorem check_hard_eq (rows cols : ℕ) (matrix : ℕ → ℕ → Option ℕ)
    (data : TimetableData) :
    check_hard_constraints rows cols matrix data =
      ((List.range rows).map (fun i => ((List.range cols).map (fun j =>
        check_cell data matrix cols i j)).sum)).sum := by
  unfold check_hard_constraints
  refine Eq.trans (foldl_add_proj (fun n : ℕ => n)
    (fun acc i => (List.range cols).foldl (fun acc j =>
      (match matrix i j with
        | none => acc
        | some field =>
          let allocation1 := allocAt data field
          let acc1 := if allocation1.possible_classrooms.contains j then acc else acc + 1
          let acc2 := if availability_violation data allocation1 i then acc1 + 1 else acc1
          (List.range cols).foldl
            (fun acc3 k =>
              if k == j then acc3
              else
                match matrix i k with
                | none => acc3
                | some next_field =>
                  let allocation2 := allocAt data next_field
                  let acc4 :=
                    if allocation1.teacher.id == allocation2.teacher.id then acc3 + 1 else acc3
                  if allocation1.class_group.id == allocation2.class_group.id then acc4 + 1
                  else acc4)
            acc2)) acc)
    (fun i => ((List.range cols).map (fun j => check_cell data matrix cols i j)).sum)
    (fun s i => foldl_add_proj (fun n : ℕ => n) _ _
      (fun s j => check_cell_body data matrix cols i j s) (List.range cols) s)
    (List.range rows) _) ?_
  simp

theorem teacher_conflict_symm (data : TimetableData) (matrix : ℕ → ℕ → Option ℕ)
    (i j k : ℕ) :
    teacher_conflict data matrix i j k = teacher_conflict data matrix i k j := by
  unfold teacher_conflict
  cases matrix i j <;> cases matrix i k <;> simp [eq_comm]

theorem group_conflict_symm (data : TimetableData) (matrix : ℕ → ℕ → Option ℕ)
    (i j k : ℕ) :
    group_conflict data matrix i j k = group_conflict data matrix i k j := by
  unfold group_conflict
  cases matrix i j <;> cases matrix i k <;> simp [eq_comm]

theorem hard_total_zero_iff (rows cols : ℕ) (matrix : ℕ → ℕ → Option ℕ)
    (data : TimetableData) :
    hard_total (hard_constraints_cost rows cols matrix data) = 0 ↔
      hard_ok data matrix rows cols := by
  unfold hard_total
  rw [hard_cost_teacher_eq, hard_cost_group_eq, hard_cost_classrooms_eq,
    hard_cost_availability_eq]
  constructor
  · intro h i hi j hj
    have ht : ∀ i < rows, ∀ j < cols, ∀ k, j + 1 ≤ k → k < j + 1 + (cols - (j + 1)) →
        teacher_conflict data matrix i j k = 0 := by
      intro i hi j hj k hk1 hk2
      have h0 := (Nat.add_eq_zero.mp ((Nat.add_eq_zero.mp
        ((Nat.add_eq_zero.mp h).1)).1)).1
      rw [map_sum_eq_zero_iff] at h0
      have h1 := h0 i (by simpa using hi)
      rw [map_sum_eq_zero_iff] at h1
      have h2 := h1 j (by simpa using hj)
      rw [map_sum_eq_zero_iff] at h2
      exact h2 k (by rw [List.mem_range'_1]; omega)
    have hg : ∀ i < rows, ∀ j < cols, ∀ k, j + 1 ≤ k → k < j + 1 + (cols - (j + 1)) →
        group_conflict data matrix i j k = 0 := by
      intro i hi j hj k hk1 hk2
      have h0 := (Nat.add_eq_zero.mp ((Nat.add_eq_zero.mp h).1)).2
      rw [map_sum_eq_zero_iff] at h0
      have h1 := h0 i (by simpa using hi)
      rw [map_sum_eq_zero_iff] at h1
      have h2 := h1 j (by simpa using hj)
      rw [map_sum_eq_zero_iff] at h2
      exact h2 k (by rw [List.mem_range'_1]; omega)
    have hr : room_viol data matrix i j = 0 := by
      have h0 := (Nat.add_eq_zero.mp ((Nat.add_eq_zero.mp
        ((Nat.add_eq_zero.mp h).1)).1)).2
      rw [map_sum_eq_zero_iff] at h0
      have h1 := h0 i (by simpa using hi)
      rw [map_sum_eq_zero_iff] at h1
      exact h1 j (by simpa using hj)
    have ha : avail_viol data matrix i j = 0 := by
      have h0 := (Nat.add_eq_zero.mp h).2
      rw [map_sum_eq_zero_iff] at h0
      have h1 := h0 i (by simpa using hi)
      rw [map_sum_eq_zero_iff] at h1
      exact h1 j (by simpa using hj)
    refine ⟨hr, ha, fun k hk hkj => ?_⟩
    rcases Nat.lt_or_ge j k with hlt | hge
    · exact ⟨ht i hi j hj k (by omega) (by omega), hg i hi j hj k (by omega) (by omega)⟩
    · have hklt : k < j := by omega
      constructor
      · rw [teacher_conflict_symm]
        exact ht i hi k hk j (by omega) (by omega)
      · rw [group_conflict_symm]
        exact hg i hi k hk j (by omega) (by omega)
  · intro h
    have hz : ∀ (f : ℕ → ℕ → ℕ → ℕ),
        (∀ i < rows, ∀ j < cols, ∀ k, j + 1 ≤ k → k < cols → f i j k = 0) →
        ((List.range rows).map (fun i => ((List.range cols).map (fun j =>
          ((List.range' (j + 1) (cols - (j + 1))).map (fun k => f i j k)).sum)).sum)).sum = 0 := by
      intro f hf
      rw [map_sum_eq_zero_iff]
      intro i hi
      rw [map_sum_eq_zero_iff]
      intro j hj
      rw [map_sum_eq_zero_iff]
      intro k hk
      rw [List.mem_range'_1] at hk
      rw [List.mem_range] at hi hj
      exact hf i hi j hj k hk.1 (by omega)
    have h1 : ((List.range rows).map (fun i => ((List.range cols).map (fun j =>
        ((List.range' (j + 1) (cols - (j + 1))).map
          (fun k => teacher_conflict data matrix i j k)).sum)).sum)).sum = 0 := by
      apply hz
      intro i hi j hj k hk1 hk2
      exact ((h i hi j hj).2.2 k hk2 (by omega)).1
    have h2 : ((List.range rows).map (fun i => ((List.range cols).map (fun j =>
        ((List.range' (j + 1) (cols - (j + 1))).map
          (fun k => group_conflict data matrix i j k)).sum)).sum)).sum = 0 := by
      apply hz
      intro i hi j hj k hk1 hk2
      exact ((h i hi j hj).2.2 k hk2 (by omega)).2
    have h3 : ((List.range rows).map (fun i => ((List.range cols).map (fun j =>
        room_viol data matrix i j)).sum)).sum = 0 := by
      rw [map_sum_eq_zero_iff]
      intro i hi
      rw [map_sum_eq_zero_iff]
      intro j hj
      rw [List.mem_range] at hi hj
      exact (h i hi j hj).1
    have h4 : ((List.range rows).map (fun i => ((List.range cols).map (fun j =>
        avail_viol data matrix i j)).sum)).sum = 0 := by
      rw [map_sum_eq_zero_iff]
      intro i hi
      rw [map_sum_eq_zero_iff]
      intro j hj
      rw [List.mem_range] at hi hj
      exact (h i hi j hj).2.1
    omega

theorem check_hard_zero_iff_ok (rows cols : ℕ) (matrix : ℕ → ℕ → Option ℕ)
    (data : TimetableData) :
    check_hard_constraints rows cols matrix data = 0 ↔ hard_ok data matrix rows cols := by
  rw [check_hard_eq]
  unfold hard_ok
  rw [map_sum_eq_zero_iff]
  constructor
  · intro h i hi j hj
    have h1 := h i (by simpa using hi)
    rw [map_sum_eq_zero_iff] at h1
    have h2 := h1 j (by simpa using hj)
    unfold check_cell at h2
    have hpair : ((List.range cols).map (fun k =>
        if k = j then 0
        else teacher_conflict data matrix i j k + group_conflict data matrix i j k)).sum = 0 := by
      omega
    rw [map_sum_eq_zero_iff] at hpair
    refine ⟨by omega, by omega, fun k hk hkj => ?_⟩
    have := hpair k (by simpa using hk)
    rw [if_neg hkj] at this
    omega
  · intro h i hi
    rw [map_sum_eq_zero_iff]
    intro j hj
    rw [List.mem_range] at hi hj
    obtain ⟨hr, ha, hp⟩ := h i hi j hj
    unfold check_cell
    have hpair : ((List.range cols).map (fun k =>
        if k = j then 0
        else teacher_conflict data matrix i j k + group_conflict data matrix i j k)).sum = 0 := by
      rw [map_sum_eq_zero_iff]
      intro k hk
      rw [List.mem_range] at hk
      by_cases hkj : k = j
      · simp [hkj]
      · rw [if_neg hkj]
        have := hp k hk hkj
        omega
    omega

/-- C3: `check_hard_constraints` returns 0 exactly when the `total` of
`hard_constraints_cost` is 0, although `check_hard_constraints` counts
each same-row teacher/group pair from both sides while
`hard_constraints_cost` counts it once (plus the availability bucket,
present in both).  Both vanish precisely when no cell has a room or
availability violation and no same-row pair shares a teacher or group. -/
theorem check_hard_zero_iff_total_zero (rows cols : ℕ) (matrix : ℕ → ℕ → Option ℕ)
    (data : TimetableData) :
    check_hard_constraints rows cols matrix data = 0 ↔
      hard_total (hard_constraints_cost rows cols matrix data) = 0 := by
  rw [check_hard_zero_iff_ok, hard_total_zero_iff]

/-- C7 (counterexample): cells (0,0) and (0,1) hold allocations 0 and 1 of
the same teacher, yet `hard_constraints_cost` credits the conflict only to
allocation 0 (the lower column); allocation 1's per-allocation entry stays
0, refuting the claim that both sides of the pair are incremented. -/
theorem hard_cost_pair_credits_left_only :
    teacher_conflict c7_data c7_matrix 0 0 1 = 1 ∧
      (hard_constraints_cost 1 2 c7_matrix c7_data).cost_teacher = 1 ∧
      (hard_constraints_cost 1 2 c7_matrix c7_data).cost_allocation 0 = 1 ∧
      (hard_constraints_cost 1 2 c7_matrix c7_data).cost_allocation 1 = 0 := by
  refine ⟨by decide, by decide, by decide, by decide⟩

/-- C7 (amended): the per-allocation accounting is asymmetric.  For every
matrix and data, `cost_allocation[a]` is exactly the sum over the cells
occupied by `a` of the cell's room and availability violations plus the
same-row conflicts against the columns strictly to the **right** of the
cell (`cell_alloc_contrib`); a pair conflict is credited only to the
allocation at the smaller column index, never to the other side. -/
theorem hard_cost_alloc_eq (rows cols : ℕ) (matrix : ℕ → ℕ → Option ℕ)
    (data : TimetableData) (a : ℕ) :
    (hard_constraints_cost rows cols matrix data).cost_allocation a =
      ((List.range rows).map (fun i => ((List.range cols).map (fun j =>
        cell_alloc_contrib data matrix cols i j a)).sum)).sum := by
  unfold hard_constraints_cost
  refine Eq.trans (foldl_add_proj (fun s : HardCost => s.cost_allocation a)
    (fun acc i => (List.range cols).foldl
      (fun acc j => hard_cell_step data matrix cols i j acc) acc)
    (fun i => ((List.range cols).map (fun j =>
      cell_alloc_contrib data matrix cols i j a)).sum)
    (fun s i => foldl_add_proj (fun s : HardCost => s.cost_allocation a) _ _
      (fun s j => hard_cell_step_alloc data matrix cols i j s a) (List.range cols) s)
    (List.range rows) _) ?_
  simp

/-- C4 (counterexample): with the single matching room stored under
classrooms-dict key 5, the preprocessor computes `possible_classrooms =
[5]`, while the matrix column set of matching rooms is `[0]` — the
preprocessor stores dict keys, not the column indices the claim asserts. -/
theorem load_data_stores_keys_not_columns :
    (allocAt (load_data_from_database c4_data [] []).1 0).possible_classrooms = [5] ∧
      possible_columns_spec c4_data c4_alloc = [0] ∧
      (allocAt (load_data_from_database c4_data [] []).1 0).possible_classrooms ≠
        possible_columns_spec c4_data c4_alloc := by
  refine ⟨by decide, by decide, by decide⟩

theorem filter_map_fst_eq_enum (Q : Classroom → Bool) :
    ∀ (l : List (ℕ × Classroom)) (n : ℕ), (∀ p ∈ l.enumFrom n, p.2.1 = p.1) →
      (l.filter (fun q => Q q.2)).map Prod.fst =
        ((l.enumFrom n).filter (fun q => Q q.2.2)).map Prod.fst := by
  intro l
  induction l with
  | nil => intro n _; simp
  | cons a t ih =>
    intro n h
    have ha : a.1 = n := h (n, a) (by simp [List.enumFrom])
    have ht : ∀ p ∈ t.enumFrom (n + 1), p.2.1 = p.1 := by
      intro p hp
      exact h p (by simp [List.enumFrom, hp])
    cases hq : Q a.2 with
    | true =>
      simp only [List.enumFrom, List.filter_cons, hq, if_true, List.map_cons]
      exact congrArg₂ List.cons ha (ih (n + 1) ht)
    | false =>
      simp only [List.enumFrom, List.filter_cons, hq, Bool.false_eq_true, if_false]
      exact ih (n + 1) ht

theorem getD_map_lt {α β : Type} (f : α → β) (l : List α) (i : ℕ) (d : α) (hd : β)
    (h : i < l.length) : (l.map f).getD i hd = f (l.getD i d) := by
  rw [List.getD_eq_getElem _ _ (by simpa using h), List.getD_eq_getElem _ _ h,
    List.getElem_map]

/-- C4 (amended): for every in-range allocation, the preprocessor sets
`possible_classrooms` to the list of classrooms-dict **keys** of matching
unblocked rooms (in dict iteration order); this coincides with the matrix
column indices of the claim exactly when every classroom's dict key equals
its position in the enumeration that builds the matrix. -/
theorem load_data_possible_classrooms (data : TimetableData)
    (tes ges : List (ℕ × List ℕ)) :
    (∀ i, i < data.class_allocations.length →
      (allocAt (load_data_from_database data tes ges).1 i).possible_classrooms =
        (data.classrooms.filter (fun q =>
          q.2.space_type.id == (allocAt data i).subject.required_space_type.id &&
            !q.2.blocked)).map Prod.fst) ∧
      ((∀ p ∈ data.classrooms.enum, p.2.1 = p.1) →
        ∀ i, i < data.class_allocations.length →
          (allocAt (load_data_from_database data tes ges).1 i).possible_classrooms =
            possible_columns_spec data (allocAt data i)) := by
  have hcode : ∀ i, i < data.class_allocations.length →
      (allocAt (load_data_from_database data tes ges).1 i).possible_classrooms =
        (data.classrooms.filter (fun q =>
          q.2.space_type.id == (allocAt data i).subject.required_space_type.id &&
            !q.2.blocked)).map Prod.fst := by
    intro i hi
    have hmap : (load_data_from_database data tes ges).1.class_allocations =
        data.class_allocations.map (fun allocation =>
          { allocation with possible_classrooms :=
              (data.classrooms.filter (fun q =>
                q.2.space_type.id == allocation.subject.required_space_type.id &&
                  !q.2.blocked)).map Prod.fst }) := rfl
    rw [allocAt, hmap, getD_map_lt _ _ _ default _ hi]
    rfl
  refine ⟨hcode, fun hkeys i hi => ?_⟩
  rw [hcode i hi, possible_columns_spec]
  exact filter_map_fst_eq_enum
    (fun room => room.space_type.id == (allocAt data i).subject.required_space_type.id &&
      !room.blocked)
    data.classrooms 0 (by simpa [List.enum] using hkeys)

theorem load_data_possible_classrooms_witness :
    (∀ p ∈ c4_good_data.classrooms.enum, p.2.1 = p.1) ∧
      (allocAt (load_data_from_database c4_good_data [] []).1 0).possible_classrooms =
        possible_columns_spec c4_good_data (allocAt c4_good_data 0) :=
  ⟨by decide, (load_data_possible_classrooms c4_good_data [] []).2 (by decide) 0 (by decide)⟩

/-! ## Association-list lemmas -/

theorem alist_lookup_nil {α : Type} (k : ℕ) : alist_lookup ([] : List (ℕ × α)) k = none := rfl

theorem alist_lookup_cons {α : Type} (p : ℕ × α) (d : List (ℕ × α)) (k : ℕ) :
    alist_lookup (p :: d) k = if p.1 = k then some p.2 else alist_lookup d k := by
  unfold alist_lookup
  rw [List.find?_cons]
  by_cases h : p.1 = k
  · have hb : (p.1 == k) = true := by simp [h]
    simp [hb, h]
  · have hb : (p.1 == k) = false := by simp [h]
    simp [hb, h]

theorem alist_lookup_map_update {α : Type} (d : List (ℕ × α)) (k : ℕ) (g : α → α) (x : ℕ) :
    alist_lookup (d.map (fun p => if p.1 == k then (p.1, g p.2) else p)) x =
      if x = k then (alist_lookup d k).map g else alist_lookup d x := by
  by_cases hxk : x = k
  · subst hxk
    rw [if_pos rfl]
    induction d with
    | nil => rfl
    | cons p t ih =>
      rw [List.map_cons]
      by_cases hpk : p.1 = x
      · have hb : (p.1 == x) = true := by simp [hpk]
        simp only [hb, if_true]
        rw [alist_lookup_cons, alist_lookup_cons, if_pos hpk, if_pos hpk]
        rfl
      · have hb : (p.1 == x) = false := by simp [hpk]
        simp only [hb, Bool.false_eq_true, if_false]
        rw [alist_lookup_cons, alist_lookup_cons, if_neg hpk, if_neg hpk]
        exact ih
  · rw [if_neg hxk]
    induction d with
    | nil => rfl
    | cons p t ih =>
      rw [List.map_cons]
      by_cases hpk : p.1 = k
      · have hb : (p.1 == k) = true := by simp [hpk]
        simp only [hb, if_true]
        rw [alist_lookup_cons, alist_lookup_cons]
        have hpx : ¬p.1 = x := by omega
        rw [if_neg hpx, if_neg hpx]
        exact ih
      · have hb : (p.1 == k) = false := by simp [hpk]
        simp only [hb, Bool.false_eq_true, if_false]
        rw [alist_lookup_cons, alist_lookup_cons]
        by_cases hpx : p.1 = x
        · rw [if_pos hpx, if_pos hpx]
        · rw [if_neg hpx, if_neg hpx]
          exact ih

theorem alist_lookup_append {α : Type} (d e : List (ℕ × α)) (x : ℕ) :
    alist_lookup (d ++ e) x = ((alist_lookup d x).or (alist_lookup e x)) := by
  induction d with
  | nil => simp [alist_lookup_nil]
  | cons p t ih =>
    rw [List.cons_append, alist_lookup_cons, alist_lookup_cons]
    by_cases h : p.1 = x
    · rw [if_pos h, if_pos h]
      rfl
    · rw [if_neg h, if_neg h]
      exact ih

theorem alist_lookup_single {α : Type} (k : ℕ) (v : α) (x : ℕ) :
    alist_lookup [(k, v)] x = if x = k then some v else none := by
  rw [alist_lookup_cons]
  by_cases h : x = k
  · subst h
    rw [if_pos rfl, if_pos rfl]
  · have h2 : ¬(k = x) := fun he => h he.symm
    rw [if_neg h2, if_neg h]
    rfl

theorem alist_append_lookup {α : Type} (d : List (ℕ × List α)) (k : ℕ) (v : α) (x : ℕ) :
    alist_lookup (alist_append d k v) x =
      if x = k then some (lookup_list d k ++ [v]) else alist_lookup d x := by
  unfold alist_append
  by_cases hm : alist_member d k
  · simp only [hm, if_true]
    rw [alist_lookup_map_update d k (fun l => l ++ [v]) x]
    by_cases hxk : x = k
    · subst hxk
      unfold alist_member at hm
      cases hk : alist_lookup d x with
      | none => rw [hk] at hm; simp at hm
      | some l => simp [hk, lookup_list]
    · simp [hxk]
  · simp only [hm, Bool.false_eq_true, if_false]
    rw [alist_lookup_append, alist_lookup_single]
    by_cases hxk : x = k
    · subst hxk
      unfold alist_member at hm
      cases hk : alist_lookup d x with
      | none => simp [hk, lookup_list]
      | some l => rw [hk] at hm; simp at hm
    · cases hk : alist_lookup d x <;> simp [hxk, hk]

theorem alist_append_lookup_list {α : Type} (d : List (ℕ × List α)) (k : ℕ) (v : α) (x : ℕ) :
    lookup_list (alist_append d k v) x =
      if x = k then lookup_list d x ++ [v] else lookup_list d x := by
  unfold lookup_list
  rw [alist_append_lookup]
  by_cases hxk : x = k
  · subst hxk
    rw [if_pos rfl, if_pos rfl]
    rfl
  · rw [if_neg hxk, if_neg hxk]

theorem alist_remove_first_lookup_list {α : Type} [DecidableEq α]
    (d : List (ℕ × List α)) (k : ℕ) (v : α) (x : ℕ) :
    lookup_list (alist_remove_first d k v) x =
      if x = k then (lookup_list d x).erase v else lookup_list d x := by
  unfold alist_remove_first
  cases hk : alist_lookup d k with
  | none =>
    by_cases hxk : x = k
    · subst hxk
      simp [lookup_list, hk]
    · simp [hxk]
  | some l =>
    by_cases hv : v ∈ l
    · simp only [hv, if_true]
      unfold lookup_list
      rw [alist_lookup_map_update d k (fun l => l.erase v) x]
      by_cases hxk : x = k
      · subst hxk
        rw [if_pos rfl, if_pos rfl, hk]
        rfl
      · rw [if_neg hxk, if_neg hxk]
    · have hvb : (v ∈ l) = False := by simp [hv]
      simp only [hvb, if_false]
      by_cases hxk : x = k
      · subst hxk
        rw [if_pos rfl]
        unfold lookup_list
        rw [hk]
        simp [List.erase_of_not_mem hv]
      · rw [if_neg hxk]

theorem alist_append_fold_lookup_list {α β : Type} (k : ℕ) (f : β → α) :
    ∀ (l : List β) (d : List (ℕ × List α)) (x : ℕ),
      lookup_list (l.foldl (fun d i => alist_append d k (f i)) d) x =
        if x = k then lookup_list d x ++ l.map f else lookup_list d x := by
  intro l
  induction l with
  | nil => intro d x; by_cases hxk : x = k <;> simp [hxk]
  | cons i t ih =>
    intro d x
    simp only [List.foldl_cons, List.map_cons, ih, alist_append_lookup_list]
    by_cases hxk : x = k <;> simp [hxk]

theorem alist_remove_fold_lookup_list {α β : Type} [DecidableEq α] (k : ℕ) (f : β → α) :
    ∀ (l : List β) (d : List (ℕ × List α)) (x : ℕ),
      lookup_list (l.foldl (fun d i => alist_remove_first d k (f i)) d) x =
        if x = k then l.foldl (fun acc i => acc.erase (f i)) (lookup_list d x)
        else lookup_list d x := by
  intro l
  induction l with
  | nil => intro d x; by_cases hxk : x = k <;> simp [hxk]
  | cons i t ih =>
    intro d x
    simp only [List.foldl_cons, ih, alist_remove_first_lookup_list]
    by_cases hxk : x = k <;> simp [hxk]

/-! ### Keys of the association lists -/

theorem alist_append_keys {α : Type} (d : List (ℕ × List α)) (k : ℕ) (v : α) :
    (alist_append d k v).map Prod.fst =
      if alist_member d k then d.map Prod.fst else d.map Prod.fst ++ [k] := by
  unfold alist_append
  by_cases hm : alist_member d k
  · simp only [hm, if_true, List.map_map]
    congr 1
    funext p
    by_cases h : p.1 = k <;> simp [h]
  · simp [hm]

theorem alist_member_iff_keys {α : Type} (d : List (ℕ × α)) (k : ℕ) :
    alist_member d k = true ↔ k ∈ d.map Prod.fst := by
  induction d with
  | nil => simp [alist_member, alist_lookup_nil]
  | cons p t ih =>
    unfold alist_member
    rw [alist_lookup_cons]
    by_cases h : p.1 = k
    · simp [h]
    · simp only [h, if_false, List.map_cons, List.mem_cons]
      rw [← ih]
      unfold alist_member
      constructor
      · intro hs; right; exact hs
      · intro hs
        rcases hs with hs | hs
        · omega
        · exact hs

theorem alist_remove_first_keys {α : Type} [DecidableEq α]
    (d : List (ℕ × List α)) (k : ℕ) (v : α) :
    (alist_remove_first d k v).map Prod.fst = d.map Prod.fst := by
  unfold alist_remove_first
  cases alist_lookup d k with
  | none => rfl
  | some l =>
    by_cases hv : v ∈ l
    · simp only [hv, if_true, List.map_map]
      congr 1
      funext p
      by_cases h : p.1 = k <;> simp [h]
    · simp [hv]

theorem alist_append_keys_nodup {α : Type} (d : List (ℕ × List α)) (k : ℕ) (v : α)
    (h : (d.map Prod.fst).Nodup) : ((alist_append d k v).map Prod.fst).Nodup := by
  rw [alist_append_keys]
  by_cases hm : alist_member d k
  · simpa [hm]
  · simp only [hm, Bool.false_eq_true, if_false]
    rw [List.nodup_append]
    refine ⟨h, List.nodup_singleton k, ?_⟩
    intro x hx hk
    simp only [List.mem_singleton] at hk
    subst hk
    rw [← alist_member_iff_keys] at hx
    exact hm hx

theorem alist_pop_keys_sublist {α : Type} (d : List (ℕ × α)) (k : ℕ) :
    ((alist_pop d k).map Prod.fst).Sublist (d.map Prod.fst) :=
  (List.eraseP_sublist d).map Prod.fst

/-! ## Multiset and permutation helpers -/

theorem erase_fold_coe {α : Type} [DecidableEq α] :
    ∀ (B l : List α), (B : Multiset α) ≤ (l : Multiset α) →
      ((B.foldl (fun l x => l.erase x) l : List α) : Multiset α) =
        (l : Multiset α) - (B : Multiset α) := by
  intro B
  induction B with
  | nil => intro l _; simp
  | cons b B ih =>
    intro l hle
    have hble : (B : Multiset α) ≤ ((l.erase b : List α) : Multiset α) := by
      have h1 := Multiset.erase_le_erase b hle
      rw [← Multiset.cons_coe, Multiset.erase_cons_head, Multiset.coe_erase] at h1
      exact h1
    simp only [List.foldl_cons]
    rw [ih (l.erase b) hble, ← Multiset.cons_coe, Multiset.sub_cons, Multiset.coe_erase]

/-- `List.erase` does not depend on the choice of a lawful `BEq` instance. -/
theorem erase_inst_eq {α : Type} (i1 i2 : BEq α) (h1 : @LawfulBEq α i1)
    (h2 : @LawfulBEq α i2) :
    ∀ (l : List α) (x : α), @List.erase α i1 l x = @List.erase α i2 l x := by
  intro l x
  induction l with
  | nil => rfl
  | cons a t ih =>
    rw [@List.erase_cons α i1, @List.erase_cons α i2, ih]
    by_cases h : a = x
    · rw [if_pos ((@beq_iff_eq α i1 h1 a x).mpr h),
        if_pos ((@beq_iff_eq α i2 h2 a x).mpr h)]
    · rw [if_neg (fun hb => h ((@beq_iff_eq α i1 h1 a x).mp hb)),
        if_neg (fun hb => h ((@beq_iff_eq α i2 h2 a x).mp hb))]

theorem foldl_congr_fun {α β : Type} (f g : β → α → β) (h : ∀ b a, f b a = g b a) :
    ∀ (l : List α) (b : β), l.foldl f b = l.foldl g b := by
  intro l
  induction l with
  | nil => intro b; rfl
  | cons a t ih => intro b; rw [List.foldl_cons, List.foldl_cons, h, ih]

theorem prod_lawfulBEq {α β : Type} [BEq α] [BEq β] [LawfulBEq α] [LawfulBEq β] :
    LawfulBEq (α × β) := by
  constructor
  · intro a b h
    obtain ⟨a1, a2⟩ := a
    obtain ⟨b1, b2⟩ := b
    have h2 : (a1 == b1 && a2 == b2) = true := h
    rw [Bool.and_eq_true] at h2
    rw [eq_of_beq h2.1, eq_of_beq h2.2]
  · intro a
    obtain ⟨a1, a2⟩ := a
    show (a1 == a1 && a2 == a2) = true
    rw [Bool.and_eq_true]
    exact ⟨LawfulBEq.rfl, LawfulBEq.rfl⟩

/-- `erase_fold_coe` at `ℕ × ℕ` with the product `BEq` instance that elaboration
picks inside `mutate_ideal_spot`. -/
theorem erase_fold_coe_prod (B l : List (ℕ × ℕ))
    (h : (B : Multiset (ℕ × ℕ)) ≤ (l : Multiset (ℕ × ℕ))) :
    ((B.foldl (fun (acc : List (ℕ × ℕ)) q => acc.erase q) l : List (ℕ × ℕ)) :
      Multiset (ℕ × ℕ)) = (l : Multiset (ℕ × ℕ)) - (B : Multiset (ℕ × ℕ)) := by
  have hcongr : ∀ (acc : List (ℕ × ℕ)) (q : ℕ × ℕ),
      acc.erase q = @List.erase (ℕ × ℕ) instBEqOfDecidableEq acc q := by
    intro acc q
    exact erase_inst_eq _ _ prod_lawfulBEq instLawfulBEq acc q
  have hfold : B.foldl (fun (acc : List (ℕ × ℕ)) q => acc.erase q) l =
      B.foldl (fun acc q => @List.erase (ℕ × ℕ) instBEqOfDecidableEq acc q) l :=
    foldl_congr_fun _ _ hcongr B l
  rw [hfold]
  exact erase_fold_coe B l h

theorem find?_perm {α : Type} (p : α → Bool) :
    ∀ (l : List α) (a : α), l.find? p = some a → l.Perm (a :: l.eraseP p) := by
  intro l
  induction l with
  | nil => intro a h; simp at h
  | cons x t ih =>
    intro a h
    rw [List.find?_cons] at h
    cases hp : p x with
    | true =>
      rw [hp] at h
      simp only [Option.some.injEq] at h
      subst h
      rw [List.eraseP_cons_of_pos hp]
    | false =>
      rw [hp] at h
      rw [List.eraseP_cons_of_neg (by simp [hp])]
      exact ((ih a h).cons x).trans (List.Perm.swap a x _)

theorem alist_lookup_eq_none_of_not_mem_keys {α : Type} (d : List (ℕ × α)) (k : ℕ)
    (h : k ∉ d.map Prod.fst) : alist_lookup d k = none := by
  cases hk : alist_lookup d k with
  | none => rfl
  | some v =>
    exfalso
    apply h
    rw [← alist_member_iff_keys]
    unfold alist_member
    rw [hk]
    rfl

theorem alist_pop_perm {α : Type} (d : List (ℕ × α)) (k : ℕ) (v : α)
    (h : alist_lookup d k = some v) : d.Perm ((k, v) :: alist_pop d k) := by
  unfold alist_lookup at h
  cases hf : d.find? (fun p => p.1 == k) with
  | none => rw [hf] at h; simp at h
  | some pr =>
    rw [hf] at h
    simp only [Option.map_some'] at h
    have hk : pr.1 = k := by
      have := List.find?_some hf
      simpa using this
    have hv : pr.2 = v := by simpa using h
    have : pr = (k, v) := by
      rw [← hk, ← hv]
    rw [← this]
    exact find?_perm _ d pr hf

theorem alist_pop_lookup_ne {α : Type} (d : List (ℕ × α)) (k x : ℕ) (hx : x ≠ k) :
    alist_lookup (alist_pop d k) x = alist_lookup d x := by
  unfold alist_pop
  induction d with
  | nil => rfl
  | cons p t ih =>
    by_cases hpk : p.1 = k
    · rw [List.eraseP_cons_of_pos (by simp [hpk])]
      rw [alist_lookup_cons, if_neg (by omega)]
    · rw [List.eraseP_cons_of_neg (by simp [hpk])]
      rw [alist_lookup_cons, alist_lookup_cons]
      by_cases hpx : p.1 = x
      · rw [if_pos hpx, if_pos hpx]
      · rw [if_neg hpx, if_neg hpx]
        exact ih

theorem alist_pop_lookup_self {α : Type} (d : List (ℕ × α)) (k : ℕ)
    (h : (d.map Prod.fst).Nodup) : alist_lookup (alist_pop d k) k = none := by
  unfold alist_pop
  induction d with
  | nil => rfl
  | cons p t ih =>
    rw [List.map_cons, List.nodup_cons] at h
    by_cases hpk : p.1 = k
    · rw [List.eraseP_cons_of_pos (by simp [hpk])]
      apply alist_lookup_eq_none_of_not_mem_keys
      rw [← hpk]
      exact h.1
    · rw [List.eraseP_cons_of_neg (by simp [hpk])]
      rw [alist_lookup_cons, if_neg hpk]
      exact ih h.2

/-! ## The grid -/

theorem grid_cells_eq_product (cols : ℕ) :
    grid_cells cols = (List.range 60) ×ˢ (List.range cols) := rfl

theorem grid_cells_nodup (cols : ℕ) : (grid_cells cols).Nodup := by
  rw [grid_cells_eq_product]
  exact (List.nodup_range 60).product (List.nodup_range cols)

theorem grid_cells_mem (cols : ℕ) (r c : ℕ) :
    (r, c) ∈ grid_cells cols ↔ r < 60 ∧ c < cols := by
  rw [grid_cells_eq_product, List.mem_product]
  simp

/-! ### Day arithmetic -/

theorem spans_midnight_iff (s d : ℕ) (hd : 1 ≤ d) :
    spans_midnight s d = false ↔ s % 12 ≤ (s + d - 1) % 12 := by
  unfold spans_midnight
  have h1 : ((s : ℤ) + (d : ℤ) - 1) = ((s + d - 1 : ℕ) : ℤ) := by omega
  rw [h1]
  simp only [decide_eq_false_iff_not, not_lt]
  omega

theorem block_same_day (s d : ℕ) (hd : 1 ≤ d) (h12 : d ≤ 12)
    (hday : spans_midnight s d = false) : ∀ i < d, (i + s) / 12 = s / 12 := by
  rw [spans_midnight_iff s d hd] at hday
  intro i hi
  omega

/-! ### Block cells -/

theorem block_cells_mem (s c d : ℕ) (q : ℕ × ℕ) :
    q ∈ block_cells s c d ↔ q.2 = c ∧ s ≤ q.1 ∧ q.1 < s + d := by
  unfold block_cells
  simp only [List.mem_map, List.mem_range]
  constructor
  · rintro ⟨i, hi, rfl⟩
    exact ⟨rfl, by omega, by omega⟩
  · rintro ⟨hc, h1, h2⟩
    refine ⟨q.1 - s, by omega, ?_⟩
    rw [← hc]
    ext <;> simp
    omega

theorem block_cells_nodup (s c d : ℕ) : (block_cells s c d).Nodup := by
  unfold block_cells
  exact (List.nodup_range d).map (fun i j h => by
    have : i + s = j + s := congrArg Prod.fst h
    omega)

theorem block_cells_rows (s c d : ℕ) :
    (block_cells s c d).map Prod.fst = (List.range d).map (fun i => i + s) := by
  unfold block_cells
  rw [List.map_map]
  rfl

/-! ### Matrix write folds -/

theorem matrix_clear_fold (fields : List (ℕ × ℕ)) :
    ∀ (m : ℕ → ℕ → Option ℕ) (r c : ℕ),
      (fields.foldl (fun m f => matrix_set m f.1 f.2 none) m) r c =
        if (r, c) ∈ fields then none else m r c := by
  induction fields with
  | nil => intro m r c; simp
  | cons f t ih =>
    intro m r c
    simp only [List.foldl_cons, ih, List.mem_cons]
    by_cases h1 : (r, c) ∈ t
    · simp [h1]
    · simp only [h1, or_false, if_neg h1]
      unfold matrix_set
      by_cases h2 : (r, c) = f
      · have : r = f.1 ∧ c = f.2 := by
          rw [Prod.ext_iff] at h2
          exact h2
        simp [h2, this]
      · have : ¬(r = f.1 ∧ c = f.2) := by
          rw [Prod.ext_iff] at h2
          exact h2
        simp [h2, this]

theorem matrix_write_fold (s c0 idx : ℕ) :
    ∀ (l : List ℕ) (m : ℕ → ℕ → Option ℕ) (r c : ℕ),
      (l.foldl (fun m i => matrix_set m (i + s) c0 (some idx)) m) r c =
        if ∃ i ∈ l, r = i + s ∧ c = c0 then some idx else m r c := by
  intro l
  induction l with
  | nil => intro m r c; simp
  | cons x t ih =>
    intro m r c
    simp only [List.foldl_cons, ih]
    by_cases h1 : ∃ i ∈ t, r = i + s ∧ c = c0
    · rw [if_pos h1, if_pos]
      obtain ⟨i, hi, h⟩ := h1
      exact ⟨i, List.mem_cons_of_mem x hi, h⟩
    · rw [if_neg h1]
      unfold matrix_set
      by_cases h2 : r = x + s ∧ c = c0
      · rw [if_pos h2, if_pos ⟨x, List.mem_cons_self x t, h2⟩]
      · rw [if_neg h2, if_neg]
        rintro ⟨i, hi, h⟩
        rw [List.mem_cons] at hi
        rcases hi with rfl | hi
        · exact h2 h
        · exact h1 ⟨i, hi, h⟩

theorem matrix_write_fold_block (s c0 idx d : ℕ) (m : ℕ → ℕ → Option ℕ) (r c : ℕ) :
    ((List.range d).foldl (fun m i => matrix_set m (i + s) c0 (some idx)) m) r c =
      if (r, c) ∈ block_cells s c0 d then some idx else m r c := by
  rw [matrix_write_fold]
  congr 1
  simp only [block_cells, List.mem_map, List.mem_range, eq_iff_iff]
  constructor
  · rintro ⟨i, hi, rfl, rfl⟩
    exact ⟨i, hi, rfl⟩
  · rintro ⟨i, hi, h⟩
    rw [Prod.ext_iff] at h
    exact ⟨i, hi, h.1.symm, h.2.symm⟩

/-! ### Supporting lemmas for the relocation proof -/

theorem mutate_ok_spec (data : TimetableData) (matrix : ℕ → ℕ → Option ℕ)
    (cols : ℕ) (free : List (ℕ × ℕ)) (idx : ℕ) (alloc : ClassAllocation)
    (s : ℕ × ℕ) (h : mutate_ok data matrix cols free idx alloc s = true) :
    spans_midnight s.1 alloc.duration = false ∧
      s.2 ∈ alloc.possible_classrooms ∧
      ∀ i < alloc.duration, (i + s.1, s.2) ∈ free ∧
        valid_teacher_group_row matrix cols data idx (i + s.1) = true := by
  unfold mutate_ok at h
  simp only [Bool.and_eq_true, Bool.not_eq_true', List.all_eq_true,
    List.mem_range, List.contains, List.elem_eq_mem, decide_eq_true_eq] at h
  obtain ⟨⟨h1, h2⟩, h3⟩ := h
  exact ⟨h1, h2, h3⟩

theorem alist_map_update_fresh {α : Type} (d : List (ℕ × α)) (k : ℕ) (g : α → α)
    (h : k ∉ d.map Prod.fst) :
    d.map (fun p => if p.1 == k then (p.1, g p.2) else p) = d := by
  have : ∀ p ∈ d, (if p.1 == k then (p.1, g p.2) else p) = p := by
    intro p hp
    have hpk : p.1 ≠ k := by
      intro he
      exact h (he ▸ List.mem_map_of_mem Prod.fst hp)
    simp [hpk]
  rw [List.map_congr_left this]
  simp

theorem alist_append_step_acc {α : Type} (d : List (ℕ × List α)) (k : ℕ)
    (acc : List α) (v : α) (h : k ∉ d.map Prod.fst) :
    alist_append (d ++ [(k, acc)]) k v = d ++ [(k, acc ++ [v])] := by
  unfold alist_append
  have hm : alist_member (d ++ [(k, acc)]) k = true := by
    unfold alist_member
    rw [alist_lookup_append, alist_lookup_single, if_pos rfl,
      alist_lookup_eq_none_of_not_mem_keys d k h]
    rfl
  rw [if_pos hm, List.map_append, alist_map_update_fresh d k (fun l => l ++ [v]) h]
  simp

theorem alist_append_fold_acc {α β : Type} (k : ℕ) (f : β → α)
    (d : List (ℕ × List α)) (h : k ∉ d.map Prod.fst) :
    ∀ (l : List β) (acc : List α),
      l.foldl (fun d i => alist_append d k (f i)) (d ++ [(k, acc)]) =
        d ++ [(k, acc ++ l.map f)] := by
  intro l
  induction l with
  | nil => intro acc; simp
  | cons x t ih =>
    intro acc
    rw [List.foldl_cons, alist_append_step_acc d k acc (f x) h, ih]
    simp

theorem alist_append_fold_new_key {α β : Type} (k : ℕ) (f : β → α)
    (d : List (ℕ × List α)) (h : k ∉ d.map Prod.fst) (l : List β) (hl : l ≠ []) :
    l.foldl (fun d i => alist_append d k (f i)) d = d ++ [(k, l.map f)] := by
  cases l with
  | nil => exact absurd rfl hl
  | cons x t =>
    rw [List.foldl_cons]
    have hfirst : alist_append d k (f x) = d ++ [(k, [f x])] := by
      unfold alist_append
      have hm : alist_member d k = false := by
        rw [← Bool.not_eq_true, alist_member_iff_keys]
        exact h
      rw [hm]
      simp
    rw [hfirst, alist_append_fold_acc k f d h t [f x]]
    simp

theorem placed_cells_cons (p : ℕ × List (ℕ × ℕ)) (rest : List (ℕ × List (ℕ × ℕ))) :
    placed_cells (p :: rest) = p.2 ++ placed_cells rest := by
  simp [placed_cells]

theorem placed_cells_append (d e : List (ℕ × List (ℕ × ℕ))) :
    placed_cells (d ++ e) = placed_cells d ++ placed_cells e := by
  simp [placed_cells]

theorem placed_cells_perm {d1 d2 : List (ℕ × List (ℕ × ℕ))} (h : d1.Perm d2) :
    (placed_cells d1).Perm (placed_cells d2) :=
  List.Perm.flatMap_right Prod.snd h

theorem occupied_rows_group_perm (data : TimetableData)
    {d1 d2 : List (ℕ × List (ℕ × ℕ))} (h : d1.Perm d2) (g : ℕ) :
    occupied_rows_group data d1 g = occupied_rows_group data d2 g := by
  unfold occupied_rows_group
  rw [Multiset.coe_eq_coe]
  exact List.Perm.flatMap_right _ (h.filter _)

theorem occupied_rows_teacher_perm (data : TimetableData)
    {d1 d2 : List (ℕ × List (ℕ × ℕ))} (h : d1.Perm d2) (t : ℕ) :
    occupied_rows_teacher data d1 t = occupied_rows_teacher data d2 t := by
  unfold occupied_rows_teacher
  rw [Multiset.coe_eq_coe]
  exact List.Perm.flatMap_right _ (h.filter _)

theorem occupied_rows_group_cons (data : TimetableData) (b : ℕ) (l : List (ℕ × ℕ))
    (rest : List (ℕ × List (ℕ × ℕ))) (g : ℕ) :
    occupied_rows_group data ((b, l) :: rest) g =
      (if (allocAt data b).class_group.id = g then
        ((l.map Prod.fst : List ℕ) : Multiset ℕ) else 0) +
        occupied_rows_group data rest g := by
  unfold occupied_rows_group
  rw [List.filter_cons]
  by_cases hg : (allocAt data b).class_group.id = g
  · have hb : ((allocAt data b).class_group.id == g) = true := by simp [hg]
    simp only [hb, if_true, if_pos hg, List.flatMap_cons]
    rfl
  · have hb : ((allocAt data b).class_group.id == g) = false := by simp [hg]
    simp only [hb, Bool.false_eq_true, if_false, if_neg hg]
    simp

theorem occupied_rows_teacher_cons (data : TimetableData) (b : ℕ) (l : List (ℕ × ℕ))
    (rest : List (ℕ × List (ℕ × ℕ))) (t : ℕ) :
    occupied_rows_teacher data ((b, l) :: rest) t =
      (if (allocAt data b).teacher.id = t then
        ((l.map Prod.fst : List ℕ) : Multiset ℕ) else 0) +
        occupied_rows_teacher data rest t := by
  unfold occupied_rows_teacher
  rw [List.filter_cons]
  by_cases hg : (allocAt data b).teacher.id = t
  · have hb : ((allocAt data b).teacher.id == t) = true := by simp [hg]
    simp only [hb, if_true, if_pos hg, List.flatMap_cons]
    rfl
  · have hb : ((allocAt data b).teacher.id == t) = false := by simp [hg]
    simp only [hb, Bool.false_eq_true, if_false, if_neg hg]
    simp

theorem lookup_subset_placed (d : List (ℕ × List (ℕ × ℕ))) (b : ℕ) (l : List (ℕ × ℕ))
    (h : alist_lookup d b = some l) : ∀ q ∈ l, q ∈ placed_cells d := by
  intro q hq
  unfold alist_lookup at h
  cases hfind : d.find? (fun p => p.1 == b) with
  | none => rw [hfind] at h; simp at h
  | some pr =>
    rw [hfind] at h
    simp only [Option.map_some'] at h
    have hmem := List.mem_of_find?_eq_some hfind
    unfold placed_cells
    rw [List.mem_flatMap]
    have hl : pr.2 = l := by simpa using h
    exact ⟨pr, hmem, by rw [hl]; exact hq⟩

theorem alist_append_fold_keys_nodup {α β : Type} (k : ℕ) (f : β → α) :
    ∀ (l : List β) (d : List (ℕ × List α)),
      (d.map Prod.fst).Nodup →
      (((l.foldl (fun d i => alist_append d k (f i)) d).map Prod.fst)).Nodup := by
  intro l
  induction l with
  | nil => intro d h; exact h
  | cons x t ih =>
    intro d h
    rw [List.foldl_cons]
    exact ih _ (alist_append_keys_nodup d k (f x) h)

theorem alist_remove_fold_keys {α β : Type} [DecidableEq α] (k : ℕ) (f : β → α) :
    ∀ (l : List β) (d : List (ℕ × List α)),
      (l.foldl (fun d i => alist_remove_first d k (f i)) d).map Prod.fst =
        d.map Prod.fst := by
  intro l
  induction l with
  | nil => intro d; rfl
  | cons x t ih =>
    intro d
    rw [List.foldl_cons, ih, alist_remove_first_keys]

/-- The post-state of a successful relocation, spelled out. -/
theorem mutate_found_eq (data : TimetableData) (cols : ℕ) (st : OptState)
    (idx : ℕ) (fields : List (ℕ × ℕ)) (s : ℕ × ℕ)
    (hf : alist_lookup st.filled idx = some fields)
    (hs : st.free.find?
      (mutate_ok data st.matrix cols st.free idx (allocAt data idx)) = some s) :
    mutate_ideal_spot data cols st idx =
      { matrix := (List.range (allocAt data idx).duration).foldl
          (fun m i => matrix_set m (i + s.1) s.2 (some idx))
          (fields.foldl (fun m f => matrix_set m f.1 f.2 none) st.matrix)
        free := (List.range (allocAt data idx).duration).foldl
          (fun l i => l.erase (i + s.1, s.2)) (st.free ++ fields)
        filled := (List.range (allocAt data idx).duration).foldl
          (fun d i => alist_append d idx (i + s.1, s.2)) (alist_pop st.filled idx)
        groups_empty_space := (List.range (allocAt data idx).duration).foldl
          (fun d i => alist_append d (allocAt data idx).class_group.id (i + s.1))
          (fields.foldl
            (fun d f => alist_remove_first d (allocAt data idx).class_group.id f.1)
            st.groups_empty_space)
        teachers_empty_space := (List.range (allocAt data idx).duration).foldl
          (fun d i => alist_append d (allocAt data idx).teacher.id (i + s.1))
          (fields.foldl
            (fun d f => alist_remove_first d (allocAt data idx).teacher.id f.1)
            st.teachers_empty_space) } := by
  unfold mutate_ideal_spot
  rw [hf]
  dsimp only
  rw [hs]

theorem mutate_preserves_inv (data : TimetableData) (cols : ℕ) (st : OptState)
    (idx : ℕ) (hinv : Inv data cols st) :
    Inv data cols (mutate_ideal_spot data cols st idx) := by
  cases hf : alist_lookup st.filled idx with
  | none =>
    have heq : mutate_ideal_spot data cols st idx = st := by
      unfold mutate_ideal_spot
      rw [hf]
    rw [heq]
    exact hinv
  | some fields =>
    cases hs : st.free.find?
        (mutate_ok data st.matrix cols st.free idx (allocAt data idx)) with
    | none =>
      have heq : mutate_ideal_spot data cols st idx = st := by
        unfold mutate_ideal_spot
        rw [hf]
        dsimp only
        rw [hs]
      rw [heq]
      exact hinv
    | some s =>
      rw [mutate_found_eq data cols st idx fields s hf hs]
      have hok : mutate_ok data st.matrix cols st.free idx (allocAt data idx) s = true :=
        List.find?_some hs
      obtain ⟨hday, hcol, hblock⟩ :=
        mutate_ok_spec data st.matrix cols st.free idx (allocAt data idx) s hok
      obtain ⟨s0, c0, hfields, hfday⟩ := hinv.blocks idx fields hf
      have hsumnodup : ((st.free : Multiset (ℕ × ℕ)) +
          (placed_cells st.filled : Multiset (ℕ × ℕ))).Nodup := by
        rw [hinv.partition]
        exact Multiset.coe_nodup.mpr (grid_cells_nodup cols)
      obtain ⟨hfreeN, hplacedN, hdisj⟩ := Multiset.nodup_add.mp hsumnodup
      have hfreeNodup : st.free.Nodup := Multiset.coe_nodup.mp hfreeN
      have hplacedNodup : (placed_cells st.filled).Nodup := Multiset.coe_nodup.mp hplacedN
      have hperm : st.filled.Perm ((idx, fields) :: alist_pop st.filled idx) :=
        alist_pop_perm st.filled idx fields hf
      have hplacedperm : (placed_cells st.filled).Perm
          (fields ++ placed_cells (alist_pop st.filled idx)) := by
        have h1 := placed_cells_perm hperm
        rwa [placed_cells_cons] at h1
      have hplacedcoe : (placed_cells st.filled : Multiset (ℕ × ℕ)) =
          (fields : Multiset (ℕ × ℕ)) +
            (placed_cells (alist_pop st.filled idx) : Multiset (ℕ × ℕ)) := by
        rw [Multiset.coe_eq_coe.mpr hplacedperm, ← Multiset.coe_add]
      have hBsub : ∀ q ∈ block_cells s.1 s.2 (allocAt data idx).duration, q ∈ st.free := by
        intro q hq
        unfold block_cells at hq
        rw [List.mem_map] at hq
        obtain ⟨i, hi, rfl⟩ := hq
        rw [List.mem_range] at hi
        exact (hblock i hi).1
      have hBle : (block_cells s.1 s.2 (allocAt data idx).duration : Multiset (ℕ × ℕ)) ≤
          (st.free : Multiset (ℕ × ℕ)) :=
        Multiset.coe_le.mpr ((block_cells_nodup _ _ _).subperm hBsub)
      have hpopkeysN : ((alist_pop st.filled idx).map Prod.fst).Nodup :=
        (alist_pop_keys_sublist st.filled idx).nodup hinv.filled_keys
      have hpopself : alist_lookup (alist_pop st.filled idx) idx = none :=
        alist_pop_lookup_self st.filled idx hinv.filled_keys
      have hidxnotin : idx ∉ (alist_pop st.filled idx).map Prod.fst := by
        intro hmem
        rw [← alist_member_iff_keys] at hmem
        unfold alist_member at hmem
        rw [hpopself] at hmem
        simp at hmem
      have hfilled2 : (List.range (allocAt data idx).duration).foldl
          (fun d i => alist_append d idx (i + s.1, s.2)) (alist_pop st.filled idx) =
          if (allocAt data idx).duration = 0 then alist_pop st.filled idx
          else alist_pop st.filled idx ++
            [(idx, block_cells s.1 s.2 (allocAt data idx).duration)] := by
        by_cases hd0 : (allocAt data idx).duration = 0
        · rw [if_pos hd0, hd0]
          rfl
        · rw [if_neg hd0,
            alist_append_fold_new_key idx (fun i => (i + s.1, s.2)) _ hidxnotin _
              (by simpa [List.range_eq_nil] using hd0)]
          rfl
      have hl2idx : alist_lookup ((List.range (allocAt data idx).duration).foldl
          (fun d i => alist_append d idx (i + s.1, s.2)) (alist_pop st.filled idx)) idx =
          if (allocAt data idx).duration = 0 then none
          else some (block_cells s.1 s.2 (allocAt data idx).duration) := by
        rw [hfilled2]
        by_cases hd0 : (allocAt data idx).duration = 0
        · rw [if_pos hd0, if_pos hd0]
          exact hpopself
        · rw [if_neg hd0, if_neg hd0, alist_lookup_append, alist_lookup_single,
            if_pos rfl, hpopself]
          rfl
      have hl2ne : ∀ b, b ≠ idx →
          alist_lookup ((List.range (allocAt data idx).duration).foldl
            (fun d i => alist_append d idx (i + s.1, s.2)) (alist_pop st.filled idx)) b =
          alist_lookup st.filled b := by
        intro b hb
        rw [hfilled2]
        by_cases hd0 : (allocAt data idx).duration = 0
        · rw [if_pos hd0]
          exact alist_pop_lookup_ne st.filled idx b hb
        · rw [if_neg hd0, alist_lookup_append, alist_lookup_single, if_neg hb,
            alist_pop_lookup_ne st.filled idx b hb]
          cases alist_lookup st.filled b <;> rfl
      have hplaced2 : (placed_cells ((List.range (allocAt data idx).duration).foldl
          (fun d i => alist_append d idx (i + s.1, s.2)) (alist_pop st.filled idx)) :
            Multiset (ℕ × ℕ)) =
          (block_cells s.1 s.2 (allocAt data idx).duration : Multiset (ℕ × ℕ)) +
            (placed_cells (alist_pop st.filled idx) : Multiset (ℕ × ℕ)) := by
        rw [hfilled2]
        by_cases hd0 : (allocAt data idx).duration = 0
        · rw [if_pos hd0, hd0]
          simp [block_cells]
        · rw [if_neg hd0, placed_cells_append]
          have hone : placed_cells [(idx, block_cells s.1 s.2 (allocAt data idx).duration)] =
              block_cells s.1 s.2 (allocAt data idx).duration := by
            simp [placed_cells]
          rw [hone, ← Multiset.coe_add]
          exact add_comm _ _
      have hfree2 : (((List.range (allocAt data idx).duration).foldl
          (fun l i => l.erase (i + s.1, s.2)) (st.free ++ fields) : List (ℕ × ℕ)) :
            Multiset (ℕ × ℕ)) =
          (st.free : Multiset (ℕ × ℕ)) + (fields : Multiset (ℕ × ℕ)) -
            (block_cells s.1 s.2 (allocAt data idx).duration : Multiset (ℕ × ℕ)) := by
        have h1 : (List.range (allocAt data idx).duration).foldl
            (fun l i => l.erase (i + s.1, s.2)) (st.free ++ fields) =
            (block_cells s.1 s.2 (allocAt data idx).duration).foldl
              (fun l q => l.erase q) (st.free ++ fields) := by
          unfold block_cells
          rw [List.foldl_map]
        have hle2 : (block_cells s.1 s.2 (allocAt data idx).duration : Multiset (ℕ × ℕ)) ≤
            ((st.free ++ fields : List (ℕ × ℕ)) : Multiset (ℕ × ℕ)) := by
          rw [← Multiset.coe_add]
          exact le_trans hBle (Multiset.le_add_right _ _)
        rw [h1]
        exact (erase_fold_coe_prod _ _ hle2).trans (by rw [← Multiset.coe_add])
      have hfree_not_placed : ∀ q, q ∈ st.free → q ∉ placed_cells st.filled := by
        intro q hq hq2
        exact Multiset.disjoint_left.mp hdisj (by simpa using hq) (by simpa using hq2)
      have hfields_sub_placed : ∀ q ∈ fields, q ∈ placed_cells st.filled :=
        lookup_subset_placed st.filled idx fields hf
      have hfields_placed1_disj : ∀ q ∈ fields,
          q ∉ placed_cells (alist_pop st.filled idx) := by
        have hN : (fields ++ placed_cells (alist_pop st.filled idx)).Nodup :=
          (hplacedperm.nodup_iff).mp hplacedNodup
        rw [List.nodup_append] at hN
        exact fun q hq hq2 => hN.2.2 hq hq2
      have hB_not_placed : ∀ q ∈ block_cells s.1 s.2 (allocAt data idx).duration,
          q ∉ placed_cells st.filled :=
        fun q hq => hfree_not_placed q (hBsub q hq)
      have hB_fields_disj : ∀ q ∈ block_cells s.1 s.2 (allocAt data idx).duration,
          q ∉ fields :=
        fun q hq hq2 => hB_not_placed q hq (hfields_sub_placed q hq2)
      have hplaced1_sub : ∀ q, q ∈ placed_cells (alist_pop st.filled idx) →
          q ∈ placed_cells st.filled := by
        intro q hq
        exact hplacedperm.mem_iff.mpr (List.mem_append_right _ hq)
      have hmat : ∀ r c, ((List.range (allocAt data idx).duration).foldl
          (fun m i => matrix_set m (i + s.1) s.2 (some idx))
          (fields.foldl (fun m f => matrix_set m f.1 f.2 none) st.matrix)) r c =
          if (r, c) ∈ block_cells s.1 s.2 (allocAt data idx).duration then some idx
          else if (r, c) ∈ fields then none else st.matrix r c := by
        intro r c
        rw [matrix_write_fold_block, matrix_clear_fold]
      refine ⟨?_, ?_, ?_, ?_, ?_, ?_, ?_, ?_⟩
      · -- filled keys nodup
        show (((List.range (allocAt data idx).duration).foldl
          (fun d i => alist_append d idx (i + s.1, s.2)) (alist_pop st.filled idx)).map
            Prod.fst).Nodup
        rw [hfilled2]
        by_cases hd0 : (allocAt data idx).duration = 0
        · rw [if_pos hd0]
          exact hpopkeysN
        · rw [if_neg hd0, List.map_append]
          rw [List.nodup_append]
          refine ⟨hpopkeysN, by simp, ?_⟩
          intro x hx hx2
          simp only [List.map_cons, List.map_nil, List.mem_singleton] at hx2
          subst hx2
          exact hidxnotin hx
      · -- ges keys nodup
        show (((List.range (allocAt data idx).duration).foldl
          (fun d i => alist_append d (allocAt data idx).class_group.id (i + s.1))
          (fields.foldl
            (fun d f => alist_remove_first d (allocAt data idx).class_group.id f.1)
            st.groups_empty_space)).map Prod.fst).Nodup
        apply alist_append_fold_keys_nodup
        rw [alist_remove_fold_keys (allocAt data idx).class_group.id Prod.fst fields
          st.groups_empty_space]
        exact hinv.ges_keys
      · -- tes keys nodup
        show (((List.range (allocAt data idx).duration).foldl
          (fun d i => alist_append d (allocAt data idx).teacher.id (i + s.1))
          (fields.foldl
            (fun d f => alist_remove_first d (allocAt data idx).teacher.id f.1)
            st.teachers_empty_space)).map Prod.fst).Nodup
        apply alist_append_fold_keys_nodup
        rw [alist_remove_fold_keys (allocAt data idx).teacher.id Prod.fst fields
          st.teachers_empty_space]
        exact hinv.tes_keys
      · -- matrix_iff
        intro r c a
        show ((List.range (allocAt data idx).duration).foldl
          (fun m i => matrix_set m (i + s.1) s.2 (some idx))
          (fields.foldl (fun m f => matrix_set m f.1 f.2 none) st.matrix)) r c = some a ↔ _
        rw [hmat r c]
        by_cases hB : (r, c) ∈ block_cells s.1 s.2 (allocAt data idx).duration
        · rw [if_pos hB]
          constructor
          · intro he
            have ha : a = idx := by
              injection he.symm
            subst ha
            have hd0 : (allocAt data a).duration ≠ 0 := by
              intro h0
              rw [h0] at hB
              simp [block_cells] at hB
            refine ⟨block_cells s.1 s.2 (allocAt data a).duration, ?_, hB⟩
            rw [hl2idx, if_neg hd0]
          · rintro ⟨l, hl, hq⟩
            by_cases ha : a = idx
            · rw [ha]
            · exfalso
              rw [hl2ne a ha] at hl
              exact hB_not_placed _ hB (lookup_subset_placed st.filled a l hl _ hq)
        · by_cases hFld : (r, c) ∈ fields
          · rw [if_neg hB, if_pos hFld]
            constructor
            · intro he
              cases he
            · rintro ⟨l, hl, hq⟩
              exfalso
              by_cases ha : a = idx
              · subst ha
                rw [hl2idx] at hl
                by_cases hd0 : (allocAt data a).duration = 0
                · rw [if_pos hd0] at hl
                  cases hl
                · rw [if_neg hd0] at hl
                  have hlB : l = block_cells s.1 s.2 (allocAt data a).duration := by
                    simpa using hl.symm
                  subst hlB
                  exact hB hq
              · rw [hl2ne a ha] at hl
                have hq1 : (r, c) ∈ placed_cells (alist_pop st.filled idx) := by
                  have hl1 : alist_lookup (alist_pop st.filled idx) a = some l := by
                    rw [alist_pop_lookup_ne st.filled idx a ha]
                    exact hl
                  exact lookup_subset_placed _ a l hl1 _ hq
                exact hfields_placed1_disj _ hFld hq1
          · rw [if_neg hB, if_neg hFld]
            rw [hinv.matrix_iff r c a]
            constructor
            · rintro ⟨l, hl, hq⟩
              by_cases ha : a = idx
              · subst ha
                rw [hf] at hl
                have : l = fields := by simpa using hl.symm
                subst this
                exact absurd hq hFld
              · exact ⟨l, by rw [hl2ne a ha]; exact hl, hq⟩
            · rintro ⟨l, hl, hq⟩
              by_cases ha : a = idx
              · subst ha
                rw [hl2idx] at hl
                by_cases hd0 : (allocAt data a).duration = 0
                · rw [if_pos hd0] at hl
                  cases hl
                · rw [if_neg hd0] at hl
                  have hlB : l = block_cells s.1 s.2 (allocAt data a).duration := by
                    simpa using hl.symm
                  subst hlB
                  exact absurd hq hB
              · rw [hl2ne a ha] at hl
                exact ⟨l, hl, hq⟩
      · -- blocks
        intro a l hl
        by_cases ha : a = idx
        · subst ha
          rw [hl2idx] at hl
          by_cases hd0 : (allocAt data a).duration = 0
          · rw [if_pos hd0] at hl
            cases hl
          · rw [if_neg hd0] at hl
            have hlB : l = block_cells s.1 s.2 (allocAt data a).duration := by
              simpa using hl.symm
            refine ⟨s.1, s.2, hlB, fun hdpos => ?_⟩
            have h12 : (allocAt data a).duration ≤ 12 := by
              have := hfday hdpos
              omega
            have hsame := block_same_day s.1 (allocAt data a).duration
              (by omega) h12 hday ((allocAt data a).duration - 1) (by omega)
            omega
        · rw [hl2ne a ha] at hl
          exact hinv.blocks a l hl
      · -- partition
        show (((List.range (allocAt data idx).duration).foldl
          (fun l i => l.erase (i + s.1, s.2)) (st.free ++ fields) : List (ℕ × ℕ)) :
            Multiset (ℕ × ℕ)) + _ = _
        rw [hfree2, hplaced2]
        have hBle2 : (block_cells s.1 s.2 (allocAt data idx).duration : Multiset (ℕ × ℕ)) ≤
            (st.free : Multiset (ℕ × ℕ)) + (fields : Multiset (ℕ × ℕ)) :=
          le_trans hBle (Multiset.le_add_right _ _)
        have hstep : ((st.free : Multiset (ℕ × ℕ)) + (fields : Multiset (ℕ × ℕ)) -
            (block_cells s.1 s.2 (allocAt data idx).duration : Multiset (ℕ × ℕ))) +
            ((block_cells s.1 s.2 (allocAt data idx).duration : Multiset (ℕ × ℕ)) +
              (placed_cells (alist_pop st.filled idx) : Multiset (ℕ × ℕ))) =
            (st.free : Multiset (ℕ × ℕ)) + (fields : Multiset (ℕ × ℕ)) +
              (placed_cells (alist_pop st.filled idx) : Multiset (ℕ × ℕ)) := by
          rw [← add_assoc, tsub_add_cancel_of_le hBle2]
        rw [hstep, add_assoc, ← hplacedcoe]
        exact hinv.partition
      · -- ges_spec
        intro g
        show ((lookup_list ((List.range (allocAt data idx).duration).foldl
          (fun d i => alist_append d (allocAt data idx).class_group.id (i + s.1))
          (fields.foldl
            (fun d f => alist_remove_first d (allocAt data idx).class_group.id f.1)
            st.groups_empty_space)) g : List ℕ) : Multiset ℕ) = _
        rw [alist_append_fold_lookup_list (allocAt data idx).class_group.id
          (fun i => i + s.1) (List.range (allocAt data idx).duration) _ g]
        rw [alist_remove_fold_lookup_list (allocAt data idx).class_group.id Prod.fst
          fields st.groups_empty_space g]
        have hocc2 : occupied_rows_group data
            ((List.range (allocAt data idx).duration).foldl
              (fun d i => alist_append d idx (i + s.1, s.2)) (alist_pop st.filled idx)) g =
            (if (allocAt data idx).class_group.id = g then
              (((block_cells s.1 s.2 (allocAt data idx).duration).map Prod.fst :
                List ℕ) : Multiset ℕ) else 0) +
              occupied_rows_group data (alist_pop st.filled idx) g := by
          rw [hfilled2]
          by_cases hd0 : (allocAt data idx).duration = 0
          · rw [if_pos hd0, hd0]
            simp [block_cells]
          · rw [if_neg hd0,
              occupied_rows_group_perm data (List.perm_append_singleton _ _) g,
              occupied_rows_group_cons]
        have hocc_old : occupied_rows_group data st.filled g =
            (if (allocAt data idx).class_group.id = g then
              ((fields.map Prod.fst : List ℕ) : Multiset ℕ) else 0) +
              occupied_rows_group data (alist_pop st.filled idx) g := by
          rw [occupied_rows_group_perm data hperm g, occupied_rows_group_cons]
        rw [hocc2]
        by_cases hg : g = (allocAt data idx).class_group.id
        · subst hg
          rw [if_pos rfl, if_pos rfl, if_pos rfl]
          have hrows_le : ((fields.map Prod.fst : List ℕ) : Multiset ℕ) ≤
              ((lookup_list st.groups_empty_space (allocAt data idx).class_group.id :
                List ℕ) : Multiset ℕ) := by
            rw [hinv.ges_spec (allocAt data idx).class_group.id, hocc_old, if_pos rfl]
            exact Multiset.le_add_right _ _
          have heraseFold : ((fields.foldl
              (fun acc f => @List.erase ℕ instBEqOfDecidableEq acc f.1)
              (lookup_list st.groups_empty_space (allocAt data idx).class_group.id) :
                List ℕ) : Multiset ℕ) =
              ((lookup_list st.groups_empty_space (allocAt data idx).class_group.id :
                List ℕ) : Multiset ℕ) -
                ((fields.map Prod.fst : List ℕ) : Multiset ℕ) := by
            have h1 : fields.foldl
                (fun acc f => @List.erase ℕ instBEqOfDecidableEq acc f.1)
                (lookup_list st.groups_empty_space (allocAt data idx).class_group.id) =
                (fields.map Prod.fst).foldl
                  (fun acc x => @List.erase ℕ instBEqOfDecidableEq acc x)
                  (lookup_list st.groups_empty_space (allocAt data idx).class_group.id) := by
              rw [List.foldl_map]
            rw [h1]
            exact erase_fold_coe _ _ hrows_le
          rw [← Multiset.coe_add, heraseFold]
          have hL : ((lookup_list st.groups_empty_space
              (allocAt data idx).class_group.id : List ℕ) : Multiset ℕ) =
              ((fields.map Prod.fst : List ℕ) : Multiset ℕ) +
                occupied_rows_group data (alist_pop st.filled idx)
                  (allocAt data idx).class_group.id := by
            rw [hinv.ges_spec (allocAt data idx).class_group.id, hocc_old, if_pos rfl]
          rw [hL, add_tsub_cancel_left, block_cells_rows]
          exact add_comm _ _
        · have hg2 : ¬((allocAt data idx).class_group.id = g) := fun he => hg he.symm
          rw [if_neg hg, if_neg hg, if_neg hg2]
          rw [hinv.ges_spec g, hocc_old, if_neg hg2, zero_add]
      · -- tes_spec
        intro t
        show ((lookup_list ((List.range (allocAt data idx).duration).foldl
          (fun d i => alist_append d (allocAt data idx).teacher.id (i + s.1))
          (fields.foldl
            (fun d f => alist_remove_first d (allocAt data idx).teacher.id f.1)
            st.teachers_empty_space)) t : List ℕ) : Multiset ℕ) = _
        rw [alist_append_fold_lookup_list (allocAt data idx).teacher.id
          (fun i => i + s.1) (List.range (allocAt data idx).duration) _ t]
        rw [alist_remove_fold_lookup_list (allocAt data idx).teacher.id Prod.fst
          fields st.teachers_empty_space t]
        have hocc2 : occupied_rows_teacher data
            ((List.range (allocAt data idx).duration).foldl
              (fun d i => alist_append d idx (i + s.1, s.2)) (alist_pop st.filled idx)) t =
            (if (allocAt data idx).teacher.id = t then
              (((block_cells s.1 s.2 (allocAt data idx).duration).map Prod.fst :
                List ℕ) : Multiset ℕ) else 0) +
              occupied_rows_teacher data (alist_pop st.filled idx) t := by
          rw [hfilled2]
          by_cases hd0 : (allocAt data idx).duration = 0
          · rw [if_pos hd0, hd0]
            simp [block_cells]
          · rw [if_neg hd0,
              occupied_rows_teacher_perm data (List.perm_append_singleton _ _) t,
              occupied_rows_teacher_cons]
        have hocc_old : occupied_rows_teacher data st.filled t =
            (if (allocAt data idx).teacher.id = t then
              ((fields.map Prod.fst : List ℕ) : Multiset ℕ) else 0) +
              occupied_rows_teacher data (alist_pop st.filled idx) t := by
          rw [occupied_rows_teacher_perm data hperm t, occupied_rows_teacher_cons]
        rw [hocc2]
        by_cases hg : t = (allocAt data idx).teacher.id
        · subst hg
          rw [if_pos rfl, if_pos rfl, if_pos rfl]
          have hrows_le : ((fields.map Prod.fst : List ℕ) : Multiset ℕ) ≤
              ((lookup_list st.teachers_empty_space (allocAt data idx).teacher.id :
                List ℕ) : Multiset ℕ) := by
            rw [hinv.tes_spec (allocAt data idx).teacher.id, hocc_old, if_pos rfl]
            exact Multiset.le_add_right _ _
          have heraseFold : ((fields.foldl
              (fun acc f => @List.erase ℕ instBEqOfDecidableEq acc f.1)
              (lookup_list st.teachers_empty_space (allocAt data idx).teacher.id) :
                List ℕ) : Multiset ℕ) =
              ((lookup_list st.teachers_empty_space (allocAt data idx).teacher.id :
                List ℕ) : Multiset ℕ) -
                ((fields.map Prod.fst : List ℕ) : Multiset ℕ) := by
            have h1 : fields.foldl
                (fun acc f => @List.erase ℕ instBEqOfDecidableEq acc f.1)
                (lookup_list st.teachers_empty_space (allocAt data idx).teacher.id) =
                (fields.map Prod.fst).foldl
                  (fun acc x => @List.erase ℕ instBEqOfDecidableEq acc x)
                  (lookup_list st.teachers_empty_space (allocAt data idx).teacher.id) := by
              rw [List.foldl_map]
            rw [h1]
            exact erase_fold_coe _ _ hrows_le
          rw [← Multiset.coe_add, heraseFold]
          have hL : ((lookup_list st.teachers_empty_space
              (allocAt data idx).teacher.id : List ℕ) : Multiset ℕ) =
              ((fields.map Prod.fst : List ℕ) : Multiset ℕ) +
                occupied_rows_teacher data (alist_pop st.filled idx)
                  (allocAt data idx).teacher.id := by
            rw [hinv.tes_spec (allocAt data idx).teacher.id, hocc_old, if_pos rfl]
          rw [hL, add_tsub_cancel_left, block_cells_rows]
          exact add_comm _ _
        · have hg2 : ¬((allocAt data idx).teacher.id = t) := fun he => hg he.symm
          rw [if_neg hg, if_neg hg, if_neg hg2]
          rw [hinv.tes_spec t, hocc_old, if_neg hg2, zero_add]

/-- **Claim C6, counterexample.**  Processing allocation 3 of `c6_data`
(duration 13), the scan of `initial_population` chooses `(12, 1)` even
though the earlier free-list entry `(10, 1)` (at position 1, versus
position 4) satisfies all three slot conditions: at `(10, 0)` the
block-free check fails and then the room check fails on the same entry,
so the index advances twice and `(10, 1)` is skipped unexamined. -/
theorem initial_population_skips_qualifying_slot :
    init_find_slot (allocAt c6_data 3) c6_st3.free c6_st3.free = some (12, 1) ∧
    init_ok c6_st3.free (allocAt c6_data 3) (10, 1) = true ∧
    c6_st3.free.indexOf (10, 1) < c6_st3.free.indexOf (12, 1) := by
  decide

theorem init_scan_eq_find (allocation : ClassAllocation) (freeAll : List (ℕ × ℕ))
    (hd : 1 ≤ allocation.duration) (h12 : allocation.duration ≤ 12)
    (hQ : day_suffix freeAll) :
    ∀ l : List (ℕ × ℕ), (∀ x ∈ l, x ∈ freeAll) →
      init_find_slot allocation freeAll l = l.find? (init_ok freeAll allocation) := by
  intro l
  induction l with
  | nil => intro _; rfl
  | cons x rest ih =>
    intro hmem
    have hxf : x ∈ freeAll := hmem x (List.mem_cons_self x rest)
    have hrest : ∀ y ∈ rest, y ∈ freeAll := fun y hy => hmem y (List.mem_cons_of_mem x hy)
    cases hspan : spans_midnight x.1 allocation.duration with
    | true =>
      have hok : ¬(init_ok freeAll allocation x = true) := by
        simp [init_ok, hspan]
      rw [List.find?_cons_of_neg _ hok]
      have hscan : init_find_slot allocation freeAll (x :: rest) =
          init_find_slot allocation freeAll rest := by
        rw [init_find_slot.eq_def]
        simp [hspan]
      rw [hscan]
      exact ih hrest
    | false =>
      have hsameday : ∀ i : ℕ, 1 ≤ i → i < allocation.duration →
          (i + x.1, x.2) ∈ freeAll := by
        intro i h1 h2
        have hsame : (i + x.1) / 12 = x.1 / 12 :=
          block_same_day x.1 allocation.duration hd h12 hspan i h2
        exact hQ x hxf (i + x.1) (by omega) hsame
      have hblockfree : init_block_free freeAll allocation x = true := by
        unfold init_block_free
        rw [List.all_eq_true]
        intro i hi
        rw [List.mem_range'_1] at hi
        have hm : (i + x.1, x.2) ∈ freeAll := hsameday i hi.1 (by omega)
        simp [List.contains, List.elem_eq_mem, hm]
      cases hroom : allocation.possible_classrooms.contains x.2 with
      | false =>
        have hroom2 : x.2 ∉ allocation.possible_classrooms := by
          simpa [List.contains, List.elem_eq_mem,
            decide_eq_false_iff_not] using hroom
        have hok : ¬(init_ok freeAll allocation x = true) := by
          simp [init_ok, hroom2]
        rw [List.find?_cons_of_neg _ hok]
        have hscan : init_find_slot allocation freeAll (x :: rest) =
            init_find_slot allocation freeAll rest := by
          rw [init_find_slot.eq_def]
          simp [hspan, hblockfree, hroom, hroom2]
        rw [hscan]
        exact ih hrest
      | true =>
        have hok : init_ok freeAll allocation x = true := by
          unfold init_ok
          rw [hspan, hroom]
          simp only [Bool.not_false, Bool.true_and, Bool.and_eq_true, List.all_eq_true]
          intro i hi
          rw [List.mem_range] at hi
          by_cases hi0 : i = 0
          · subst hi0
            simpa [List.contains, List.elem_eq_mem] using hxf
          · have hm := hsameday i (by omega) hi
            simp [List.contains, List.elem_eq_mem, hm]
        rw [List.find?_cons_of_pos _ hok]
        have hroom2 : x.2 ∈ allocation.possible_classrooms := by
          simpa [List.contains, List.elem_eq_mem] using hroom
        have hscan : init_find_slot allocation freeAll (x :: rest) = some x := by
          rw [init_find_slot.eq_def]
          simp [hspan, hblockfree, hroom, hroom2]
        rw [hscan]

/-- **Claim C6, amended.**  When the allocation's duration is between 1
and 12 and the free list is day-upward-closed (as `set_up`'s grid is),
the block-free check can only fail where the day check already failed, so
the double advance never fires and the scan of `initial_population` is
exactly first-fit: it returns the first free-list entry satisfying the
three slot conditions.  With duration ≥ 13 this fails
(`initial_population_skips_qualifying_slot`). -/
theorem init_find_slot_first_fit (allocation : ClassAllocation)
    (freeAll : List (ℕ × ℕ)) (hd : 1 ≤ allocation.duration)
    (h12 : allocation.duration ≤ 12) (hQ : day_suffix freeAll) :
    init_find_slot allocation freeAll freeAll =
      freeAll.find? (init_ok freeAll allocation) :=
  init_scan_eq_find allocation freeAll hd h12 hQ freeAll (fun _ hx => hx)

theorem grid_day_suffix (cols : ℕ) : day_suffix (grid_cells cols) := by
  intro q hq r' hlt hday
  obtain ⟨r, c⟩ := q
  rw [grid_cells_mem] at hq
  rw [grid_cells_mem]
  omega

/-- Witness for `init_find_slot_first_fit`: a duration-2 allocation over
the one-column grid. -/
theorem init_find_slot_first_fit_witness :
    1 ≤ (c6_alloc 2 [0] 1).duration ∧ (c6_alloc 2 [0] 1).duration ≤ 12 ∧
    init_find_slot (c6_alloc 2 [0] 1) (grid_cells 1) (grid_cells 1) =
      (grid_cells 1).find? (init_ok (grid_cells 1) (c6_alloc 2 [0] 1)) :=
  ⟨by decide, by decide, init_find_slot_first_fit (c6_alloc 2 [0] 1) (grid_cells 1)
    (by decide) (by decide) (grid_day_suffix 1)⟩

/-! ## Claim C2: relocation preserves the data-model invariants -/

/-- **Claim C2.**  If invariants 1-5 (`Inv`: matrix/filled consistency,
blocks of consecutive same-column same-day rows, free + placed cells
partitioning the grid as multisets, and the two empty-space dicts equal
to the occupied-row multisets per group and per teacher) hold of a
candidate state, then they hold after `mutate_ideal_spot` is applied to
any sequence of allocation indices - whether or not each call finds a
qualifying slot. -/
theorem mutate_sequence_preserves_inv (data : TimetableData) (cols : ℕ)
    (idxs : List ℕ) (st : OptState) (hinv : Inv data cols st) :
    Inv data cols (idxs.foldl (fun st i => mutate_ideal_spot data cols st i) st) := by
  induction idxs generalizing st with
  | nil => exact hinv
  | cons i rest ih =>
    rw [List.foldl_cons]
    exact ih (mutate_ideal_spot data cols st i) (mutate_preserves_inv data cols st i hinv)

/-- The invariants hold of the fresh state `set_up` produces (empty
matrix, full-grid free list, empty dicts). -/
theorem inv_of_fresh (data : TimetableData) (cols : ℕ) :
    Inv data cols
      { matrix := fun _ _ => none
        free := grid_cells cols
        filled := []
        groups_empty_space := []
        teachers_empty_space := [] } := by
  constructor
  · simp
  · simp
  · simp
  · intro r c a
    simp [alist_lookup]
  · intro a l hl
    simp [alist_lookup] at hl
  · simp [placed_cells]
  · intro g
    simp [lookup_list, alist_lookup, occupied_rows_group, placed_cells]
  · intro t
    simp [lookup_list, alist_lookup, occupied_rows_teacher, placed_cells]

/-- Witness for `mutate_sequence_preserves_inv`: two relocation calls on
the fresh one-column state of `c6_data`. -/
theorem mutate_sequence_preserves_inv_witness :
    Inv c6_data 1
      (([0, 1] : List ℕ).foldl (fun st i => mutate_ideal_spot c6_data 1 st i)
        { matrix := fun _ _ => none
          free := grid_cells 1
          filled := []
          groups_empty_space := []
          teachers_empty_space := [] }) :=
  mutate_sequence_preserves_inv c6_data 1 [0, 1] _ (inv_of_fresh c6_data 1)

/-! ## Claim C10: a successful relocation never reuses an old row -/

/-- **Claim C10.**  Under the invariants, whenever `mutate_ideal_spot`
finds a qualifying slot `s` for a placed allocation (old cells `fields`),
no row of the new block coincides with a row of the old placement:
`valid_teacher_group_row` scans the whole target row, including the
allocation's own current cells, so a shared row would make the
allocation's teacher conflict with itself and the slot would have been
rejected. -/
theorem mutate_new_rows_disjoint (data : TimetableData) (cols : ℕ) (st : OptState)
    (idx : ℕ) (hinv : Inv data cols st) (fields : List (ℕ × ℕ))
    (hf : alist_lookup st.filled idx = some fields) (s : ℕ × ℕ)
    (hs : st.free.find?
      (mutate_ok data st.matrix cols st.free idx (allocAt data idx)) = some s) :
    ∀ r ∈ (block_cells s.1 s.2 (allocAt data idx).duration).map Prod.fst,
      r ∉ fields.map Prod.fst := by
  intro r hr hrold
  rw [block_cells_rows] at hr
  obtain ⟨i, hid, hir⟩ := List.mem_map.mp hr
  rw [List.mem_range] at hid
  have hok := List.find?_some hs
  have hspec := mutate_ok_spec data st.matrix cols st.free idx (allocAt data idx) s hok
  have hvalid := (hspec.2.2 i hid).2
  obtain ⟨q, hq, hqr⟩ := List.mem_map.mp hrold
  have hcell : st.matrix q.1 q.2 = some idx :=
    (hinv.matrix_iff q.1 q.2 idx).mpr ⟨fields, hf, by simpa using hq⟩
  have hqp : q ∈ placed_cells st.filled :=
    lookup_subset_placed st.filled idx fields hf q hq
  have hgrid : q ∈ grid_cells cols := by
    have hmem : q ∈ (grid_cells cols : Multiset (ℕ × ℕ)) := by
      rw [← hinv.partition]
      exact Multiset.mem_add.mpr (Or.inr (by simpa using hqp))
    simpa using hmem
  have hqcols : q.2 < cols := by
    have := (grid_cells_mem cols q.1 q.2).mp (by simpa using hgrid)
    exact this.2
  unfold valid_teacher_group_row at hvalid
  rw [Bool.and_eq_true, List.all_eq_true] at hvalid
  have hcol := hvalid.2 q.2 (List.mem_range.mpr hqcols)
  have hrq : i + s.1 = q.1 := by rw [hir, hqr]
  rw [hrq, hcell] at hcol
  simp at hcol

theorem c10_inv : Inv c10_data 1 c10_st := by
  constructor
  · decide
  · decide
  · decide
  · intro r c a
    show (if r = 0 ∧ c = 0 then some 0 else none) = some a ↔ _
    by_cases h : r = 0 ∧ c = 0
    · rw [if_pos h]
      constructor
      · intro he
        have ha : a = 0 := by
          injection he.symm
        subst ha
        exact ⟨[(0, 0)], rfl, by simp [h.1, h.2]⟩
      · rintro ⟨l, hl, hq⟩
        by_cases ha : a = 0
        · rw [ha]
        · exfalso
          have hb : (0 == a) = false := by simp [Ne.symm ha]
          have : alist_lookup c10_st.filled a = none := by
            simp [c10_st, alist_lookup, List.find?, hb]
          rw [this] at hl
          cases hl
    · rw [if_neg h]
      constructor
      · intro he
        cases he
      · rintro ⟨l, hl, hq⟩
        exfalso
        by_cases ha : a = 0
        · subst ha
          have : l = [(0, 0)] := by
            have : alist_lookup c10_st.filled 0 = some [(0, 0)] := by
              simp [c10_st, alist_lookup, List.find?]
            rw [this] at hl
            injection hl.symm
          subst this
          simp at hq
          exact h ⟨hq.1, hq.2⟩
        · have hb : (0 == a) = false := by simp [Ne.symm ha]
          have : alist_lookup c10_st.filled a = none := by
            simp [c10_st, alist_lookup, List.find?, hb]
          rw [this] at hl
          cases hl
  · intro a l hl
    by_cases ha : a = 0
    · subst ha
      have hl2 : l = [(0, 0)] := by
        have : alist_lookup c10_st.filled 0 = some [(0, 0)] := by
          simp [c10_st, alist_lookup, List.find?]
        rw [this] at hl
        injection hl.symm
      subst hl2
      exact ⟨0, 0, by decide, fun _ => rfl⟩
    · exfalso
      have hb : (0 == a) = false := by simp [Ne.symm ha]
      have : alist_lookup c10_st.filled a = none := by
        simp [c10_st, alist_lookup, List.find?, hb]
      rw [this] at hl
      cases hl
  · decide
  · intro g
    by_cases hg : g = 1
    · subst hg
      decide
    · show ((lookup_list [(1, [0])] g : List ℕ) : Multiset ℕ) = _
      have hb : (1 == g) = false := by simp [Ne.symm hg]
      have h1 : lookup_list [(1, [0])] g = [] := by
        simp [lookup_list, alist_lookup, List.find?, hb]
      have h2 : occupied_rows_group c10_data c10_st.filled g = 0 := by
        unfold occupied_rows_group
        have hne : (allocAt c10_data 0).class_group.id ≠ g := by
          simpa [c10_data, c6_alloc, allocAt] using Ne.symm hg
        have hb2 : ((allocAt c10_data 0).class_group.id == g) = false := by
          simpa using hne
        simp [c10_st, List.filter, hb2]
      rw [h1, h2]
      rfl
  · intro t
    by_cases ht : t = 1
    · subst ht
      decide
    · show ((lookup_list [(1, [0])] t : List ℕ) : Multiset ℕ) = _
      have hb : (1 == t) = false := by simp [Ne.symm ht]
      have h1 : lookup_list [(1, [0])] t = [] := by
        simp [lookup_list, alist_lookup, List.find?, hb]
      have h2 : occupied_rows_teacher c10_data c10_st.filled t = 0 := by
        unfold occupied_rows_teacher
        have hne : (allocAt c10_data 0).teacher.id ≠ t := by
          simpa [c10_data, c6_alloc, allocAt] using Ne.symm ht
        have hb2 : ((allocAt c10_data 0).teacher.id == t) = false := by
          simpa using hne
        simp [c10_st, List.filter, hb2]
      rw [h1, h2]
      rfl

/-- Witness for `mutate_new_rows_disjoint`: the relocation of the
allocation placed at `(0, 0)` finds `(1, 0)`, and row 1 avoids old row 0. -/
theorem mutate_new_rows_disjoint_witness :
    alist_lookup c10_st.filled 0 = some [(0, 0)] ∧
    c10_st.free.find?
      (mutate_ok c10_data c10_st.matrix 1 c10_st.free 0 (allocAt c10_data 0)) =
        some (1, 0) ∧
    ∀ r ∈ (block_cells 1 0 (allocAt c10_data 0).duration).map Prod.fst,
      r ∉ ([(0, 0)] : List (ℕ × ℕ)).map Prod.fst :=
  ⟨by decide, by decide,
    mutate_new_rows_disjoint c10_data 1 c10_st 0 c10_inv [(0, 0)] (by decide)
      (1, 0) (by decide)⟩

theorem anneal_step_reject (data : TimetableData) (cols : ℕ) (idxs : List ℕ)
    (o : Bool) (loc cal : OptState) (aliased : Bool) (curr : ℚ)
    (h : anneal_accept curr (empty_space_groups_cost
      (idxs.foldl (fun st i => mutate_ideal_spot data cols st i) loc).groups_empty_space).2.2
        o = false) :
    anneal_step data cols idxs o (loc, cal, aliased, curr) =
      (loc,
        (if aliased then idxs.foldl (fun st i => mutate_ideal_spot data cols st i) loc
          else cal),
        false, curr) := by
  unfold anneal_step
  simp only [h]

theorem anneal_step_accept (data : TimetableData) (cols : ℕ) (idxs : List ℕ)
    (o : Bool) (loc cal : OptState) (aliased : Bool) (curr : ℚ)
    (h : anneal_accept curr (empty_space_groups_cost
      (idxs.foldl (fun st i => mutate_ideal_spot data cols st i) loc).groups_empty_space).2.2
        o = true) :
    anneal_step data cols idxs o (loc, cal, aliased, curr) =
      (idxs.foldl (fun st i => mutate_ideal_spot data cols st i) loc,
        (if aliased then idxs.foldl (fun st i => mutate_ideal_spot data cols st i) loc
          else cal),
        aliased,
        (empty_space_groups_cost
          (idxs.foldl (fun st i => mutate_ideal_spot data cols st i) loc).groups_empty_space).2.2) := by
  unfold anneal_step
  simp only [h]

theorem empty_space_groups_cost_avg (L : List (ℕ × List ℕ)) (h : L.length ≠ 0) :
    (empty_space_groups_cost L).2.2 =
      ((empty_space_groups_cost L).1 : ℚ) / (L.length : ℚ) := by
  unfold empty_space_groups_cost
  rw [if_neg h]

theorem c1_hacc : anneal_accept (empty_space_groups_cost c1_st0.groups_empty_space).2.2
    (empty_space_groups_cost
      (([1] : List ℕ).foldl (fun st i => mutate_ideal_spot c1_data 1 st i)
        c1_st0).groups_empty_space).2.2 false = false := by
  have hfold : ([1] : List ℕ).foldl (fun st i => mutate_ideal_spot c1_data 1 st i) c1_st0 =
      c1_mut := rfl
  rw [hfold]
  have e0 : (empty_space_groups_cost c1_st0.groups_empty_space).2.2 = 0 := by
    rw [empty_space_groups_cost_avg _ (by decide)]
    have h1 : (empty_space_groups_cost c1_st0.groups_empty_space).1 = 0 := by decide
    have h2 : c1_st0.groups_empty_space.length = 1 := by decide
    rw [h1, h2]
    norm_num
  have e1 : (empty_space_groups_cost c1_mut.groups_empty_space).2.2 = 1 := by
    rw [empty_space_groups_cost_avg _ (by decide)]
    have h1 : (empty_space_groups_cost c1_mut.groups_empty_space).1 = 1 := by decide
    have h2 : c1_mut.groups_empty_space.length = 1 := by decide
    rw [h1, h2]
    norm_num
  rw [e0, e1]
  unfold anneal_accept
  rw [decide_eq_false (by norm_num), decide_eq_false (by norm_num)]
  rfl

theorem c1_step0 :
    anneal_step c1_data 1 [1] false
      (c1_st0, c1_st0, true, (empty_space_groups_cost c1_st0.groups_empty_space).2.2) =
      c1_S1 := by
  rw [anneal_step_reject c1_data 1 [1] false c1_st0 c1_st0 true _ c1_hacc]
  rfl

theorem c1_stepS1 : anneal_step c1_data 1 [1] false c1_S1 = c1_S1 := by
  show anneal_step c1_data 1 [1] false
      (c1_st0, c1_mut, false, (empty_space_groups_cost c1_st0.groups_empty_space).2.2) = c1_S1
  rw [anneal_step_reject c1_data 1 [1] false c1_st0 c1_mut false _ c1_hacc]
  rfl

theorem c1_fix (l : List ℕ) :
    l.foldl (fun s i => anneal_step c1_data 1 ((fun _ : ℕ => [1]) i)
      ((fun _ : ℕ => false) i) s) c1_S1 = c1_S1 := by
  induction l with
  | nil => rfl
  | cons a t ih =>
    rw [List.foldl_cons]
    show t.foldl _ (anneal_step c1_data 1 [1] false c1_S1) = c1_S1
    rw [c1_stepS1]
    exact ih

theorem c1_run :
    simulated_hardening c1_data 1 (fun _ => [1]) (fun _ => false) 2500 c1_st0 = c1_S1 := by
  unfold simulated_hardening
  rw [List.range_eq_range']
  rw [show List.range' 0 2500 = 0 :: List.range' 1 2499 from rfl]
  rw [List.foldl_cons]
  show (List.range' 1 2499).foldl _
    (anneal_step c1_data 1 [1] false
      (c1_st0, c1_st0, true, (empty_space_groups_cost c1_st0.groups_empty_space).2.2)) = c1_S1
  rw [c1_step0]
  exact c1_fix (List.range' 1 2499)

/-- **Claim C1, refuted (code bug).**  On `c1_st0` every annealing
iteration's mutation (relocate allocation 1) is rejected by the
acceptance test, yet after the full 2500-iteration run the caller-visible
candidate still contains the first iteration's mutation: allocation 1
sits at `(4, 0)` instead of `(1, 0)` and the group empty-space dict
holds `[0, 2, 3, 4]`.  Only the local bindings were restored to the
snapshot: the restore rebinds local names and severs aliasing instead of
reinstating the caller's objects, so the "transaction" leaks exactly one
rejected mutation into the final result. -/
theorem simulated_hardening_leaks_rejected_mutation :
    (simulated_hardening c1_data 1 (fun _ => [1]) (fun _ => false) 2500 c1_st0).2.1.matrix 4 0
        = some 1 ∧
    (simulated_hardening c1_data 1 (fun _ => [1]) (fun _ => false) 2500 c1_st0).2.1.matrix 1 0
        = none ∧
    (simulated_hardening c1_data 1 (fun _ => [1]) (fun _ => false)
        2500 c1_st0).2.1.groups_empty_space = [(1, [0, 2, 3, 4])] ∧
    (simulated_hardening c1_data 1 (fun _ => [1]) (fun _ => false) 2500 c1_st0).1 = c1_st0 := by
  refine ⟨?_, ?_, ?_, ?_⟩ <;> rw [c1_run]
  · decide
  · decide
  · decide
  · rfl

/-- **Claim C5, refuted (code bug).**  On the trivial single-class input
the initial placement does put the allocation at `(0, 0)` with hard cost
0 and zero idle gaps - but `optimize` does not run to completion: the
first iteration of the evolutionary phase's first run finds the optimal
cost and `break`s before `loss_after` is ever assigned, so the
`print(f'Final cost: {loss_after}')` after the loop raises `NameError`
(for every mutation oracle and any fuel). -/
theorem evolutionary_algorithm_name_error_on_trivial_input :
    alist_lookup c5_st1.filled 0 = some [(0, 0)] ∧
    c5_st1.matrix 0 0 = some 0 ∧
    hard_total (hard_constraints_cost 60 1 c5_st1.matrix c5_data) = 0 ∧
    check_hard_constraints 60 1 c5_st1.matrix c5_data = 0 ∧
    (empty_space_groups_cost c5_st1.groups_empty_space).1 = 0 ∧
    (empty_space_teachers_cost c5_st1.teachers_empty_space).1 = 0 ∧
    (∀ (mo : ℕ → ℕ → ℕ → Bool) (fuel : ℕ), 1 ≤ fuel →
      evolutionary_algorithm c5_data 60 1 mo fuel c5_st1 = EvoOutcome.nameError) := by
  refine ⟨by decide, by decide, by decide, by decide, by decide, by decide, ?_⟩
  intro mo fuel hfuel
  match fuel, hfuel with
  | fuel + 1, _ =>
    have hB : hard_total (hard_constraints_cost 60 1 c5_st1.matrix c5_data) = 0 := by decide
    have hC : check_hard_constraints 60 1 c5_st1.matrix c5_data = 0 := by decide
    have hw : evo_while c5_data 60 1 (mo 0) (fuel + 1) 0 0 c5_st1 none =
        some (c5_st1, none) := by
      simp only [evo_while]
      rw [if_neg (by omega), if_pos ⟨hB, hC⟩]
    show evo_runs c5_data 60 1 mo (fuel + 1) (List.range 5) c5_st1 none =
      EvoOutcome.nameError
    rw [show List.range 5 = [0, 1, 2, 3, 4] from rfl]
    simp only [evo_runs, hw]

/-- Witness for the oracle/fuel quantifier of
`evolutionary_algorithm_name_error_on_trivial_input`. -/
theorem evolutionary_algorithm_name_error_witness :
    evolutionary_algorithm c5_data 60 1 (fun _ _ _ => false) 1 c5_st1 =
      EvoOutcome.nameError :=
  evolutionary_algorithm_name_error_on_trivial_input.2.2.2.2.2.2
    (fun _ _ _ => false) 1 (by decide)

/-! ## Claim C9: the set of placed allocations never grows -/

/-- `mutate_ideal_spot` returns immediately, with no state change, when
the allocation index is absent from `filled`. -/
theorem mutate_noop_unplaced (data : TimetableData) (cols : ℕ) (st : OptState)
    (idx : ℕ) (hf : alist_lookup st.filled idx = none) :
    mutate_ideal_spot data cols st idx = st := by
  unfold mutate_ideal_spot
  rw [hf]

theorem mutate_noop_notfound (data : TimetableData) (cols : ℕ) (st : OptState)
    (idx : ℕ) (fields : List (ℕ × ℕ))
    (hf : alist_lookup st.filled idx = some fields)
    (hs : st.free.find?
      (mutate_ok data st.matrix cols st.free idx (allocAt data idx)) = none) :
    mutate_ideal_spot data cols st idx = st := by
  unfold mutate_ideal_spot
  rw [hf]
  dsimp only
  rw [hs]

theorem alist_append_fold_keys_subset {α β : Type} (k : ℕ) (f : β → α) :
    ∀ (rng : List β) (l : List (ℕ × List α)) (a : ℕ),
      a ∈ ((rng.foldl (fun d i => alist_append d k (f i)) l).map Prod.fst) →
        a ∈ l.map Prod.fst ∨ a = k := by
  intro rng
  induction rng with
  | nil => intro l a h; exact Or.inl h
  | cons i t ih =>
    intro l a h
    rw [List.foldl_cons] at h
    rcases ih (alist_append l k (f i)) a h with h1 | h1
    · rw [alist_append_keys] at h1
      by_cases hm : alist_member l k
      · rw [if_pos hm] at h1
        exact Or.inl h1
      · rw [if_neg hm] at h1
        rcases List.mem_append.mp h1 with h2 | h2
        · exact Or.inl h2
        · simp only [List.mem_singleton] at h2
          exact Or.inr h2
    · exact Or.inr h1

/-- The keys of `filled` never gain a new member through a relocation. -/
theorem mutate_filled_keys_subset (data : TimetableData) (cols : ℕ)
    (st : OptState) (idx a : ℕ)
    (h : a ∈ (mutate_ideal_spot data cols st idx).filled.map Prod.fst) :
    a ∈ st.filled.map Prod.fst := by
  cases hf : alist_lookup st.filled idx with
  | none => rw [mutate_noop_unplaced data cols st idx hf] at h; exact h
  | some fields =>
    cases hs : st.free.find?
        (mutate_ok data st.matrix cols st.free idx (allocAt data idx)) with
    | none => rw [mutate_noop_notfound data cols st idx fields hf hs] at h; exact h
    | some s =>
      rw [mutate_found_eq data cols st idx fields s hf hs] at h
      rcases alist_append_fold_keys_subset idx
          (fun i : ℕ => ((i + s.1, s.2) : ℕ × ℕ))
          (List.range (allocAt data idx).duration) (alist_pop st.filled idx) a h with
        h1 | h1
      · exact (alist_pop_keys_sublist st.filled idx).subset h1
      · subst h1
        have hm : alist_member st.filled a = true := by
          unfold alist_member
          rw [hf]
          rfl
        exact (alist_member_iff_keys st.filled a).mp hm

theorem mutate_fold_keys_subset (data : TimetableData) (cols : ℕ) :
    ∀ (idxs : List ℕ) (st : OptState) (a : ℕ),
      a ∈ ((idxs.foldl (fun s i => mutate_ideal_spot data cols s i) st).filled.map
        Prod.fst) → a ∈ st.filled.map Prod.fst := by
  intro idxs
  induction idxs with
  | nil => intro st a h; exact h
  | cons i t ih =>
    intro st a h
    rw [List.foldl_cons] at h
    exact mutate_filled_keys_subset data cols st i a
      (ih (mutate_ideal_spot data cols st i) a h)

theorem evo_pass_keys_subset (data : TimetableData) (cols : ℕ) (cl : List (ℕ × ℕ))
    (mo : ℕ → Bool) (st : OptState) (a : ℕ)
    (h : a ∈ (evo_mutation_pass data cols cl mo st).filled.map Prod.fst) :
    a ∈ st.filled.map Prod.fst := by
  unfold evo_mutation_pass at h
  revert h
  generalize List.range (cl.length / 4) = rng
  induction rng generalizing st with
  | nil => intro h; exact h
  | cons i t ih =>
    intro h
    rw [List.foldl_cons] at h
    have h2 := ih (if mo i && ((cl.getD i (0, 0)).2 != 0) then
      mutate_ideal_spot data cols st (cl.getD i (0, 0)).1 else st) h
    by_cases hc : (mo i && ((cl.getD i (0, 0)).2 != 0)) = true
    · rw [if_pos hc] at h2
      exact mutate_filled_keys_subset data cols st _ a h2
    · rw [if_neg hc] at h2
      exact h2

theorem evo_while_keys_subset (data : TimetableData) (rows cols : ℕ)
    (mo : ℕ → ℕ → Bool) :
    ∀ (fuel stag t : ℕ) (st : OptState) (la : Option ℕ) (st' : OptState)
      (la' : Option ℕ),
      evo_while data rows cols mo fuel stag t st la = some (st', la') →
      ∀ a, a ∈ st'.filled.map Prod.fst → a ∈ st.filled.map Prod.fst := by
  intro fuel
  induction fuel with
  | zero =>
    intro stag t st la st' la' h
    rw [show evo_while data rows cols mo 0 stag t st la = none from rfl] at h
    cases h
  | succ k ih =>
    intro stag t st la st' la' h a ha
    simp only [evo_while] at h
    by_cases h200 : 200 ≤ stag
    · rw [if_pos h200] at h
      simp only [Option.some.injEq, Prod.mk.injEq] at h
      rw [h.1]
      exact ha
    · rw [if_neg h200] at h
      by_cases hopt : hard_total (hard_constraints_cost rows cols st.matrix data) = 0 ∧
          check_hard_constraints rows cols st.matrix data = 0
      · rw [if_pos hopt] at h
        simp only [Option.some.injEq, Prod.mk.injEq] at h
        rw [h.1]
        exact ha
      · rw [if_neg hopt] at h
        have h2 := ih _ _ _ _ _ _ h a ha
        exact evo_pass_keys_subset data cols _ _ st a h2

theorem evo_runs_keys_subset (data : TimetableData) (rows cols : ℕ)
    (mo : ℕ → ℕ → ℕ → Bool) (fuel : ℕ) :
    ∀ (runs : List ℕ) (st : OptState) (la : Option ℕ) (st' : OptState),
      evo_runs data rows cols mo fuel runs st la = EvoOutcome.ok st' →
      ∀ a, a ∈ st'.filled.map Prod.fst → a ∈ st.filled.map Prod.fst := by
  intro runs
  induction runs with
  | nil =>
    intro st la st' h a ha
    simp only [evo_runs] at h
    injection h with h1
    rw [h1]
    exact ha
  | cons run rest ih =>
    intro st la st' h a ha
    simp only [evo_runs] at h
    cases hw : evo_while data rows cols (mo run) fuel 0 0 st la with
    | none =>
      rw [hw] at h
      exact EvoOutcome.noConfusion h
    | some pair =>
      obtain ⟨st1, la1⟩ := pair
      rw [hw] at h
      cases la1 with
      | none => exact EvoOutcome.noConfusion h
      | some L =>
        have h2 := ih st1 (some L) st' h a ha
        exact evo_while_keys_subset data rows cols (mo run) fuel 0 0 st la st1 (some L)
          hw a h2

theorem anneal_fold_keys_subset (data : TimetableData) (cols : ℕ)
    (idxO : ℕ → List ℕ) (accO : ℕ → Bool) :
    ∀ (l : List ℕ) (loc cal : OptState) (al : Bool) (curr : ℚ) (a : ℕ),
      ((a ∈ (l.foldl (fun s i => anneal_step data cols (idxO i) (accO i) s)
          (loc, cal, al, curr)).1.filled.map Prod.fst →
        a ∈ loc.filled.map Prod.fst ∨ a ∈ cal.filled.map Prod.fst) ∧
      (a ∈ (l.foldl (fun s i => anneal_step data cols (idxO i) (accO i) s)
          (loc, cal, al, curr)).2.1.filled.map Prod.fst →
        a ∈ loc.filled.map Prod.fst ∨ a ∈ cal.filled.map Prod.fst)) := by
  intro l
  induction l with
  | nil =>
    intro loc cal al curr a
    exact ⟨Or.inl, Or.inr⟩
  | cons i t ih =>
    intro loc cal al curr a
    rw [List.foldl_cons]
    cases hacc : anneal_accept curr
        (empty_space_groups_cost ((idxO i).foldl
          (fun st j => mutate_ideal_spot data cols st j) loc).groups_empty_space).2.2
        (accO i) with
    | true =>
      rw [anneal_step_accept data cols (idxO i) (accO i) loc cal al curr hacc]
      have hmut : ∀ b, b ∈ ((idxO i).foldl (fun st j => mutate_ideal_spot data cols st j)
          loc).filled.map Prod.fst → b ∈ loc.filled.map Prod.fst :=
        fun b hb => mutate_fold_keys_subset data cols (idxO i) loc b hb
      constructor
      · intro h
        rcases (ih _ _ _ _ a).1 h with h1 | h1
        · exact Or.inl (hmut a h1)
        · by_cases hal : al = true
          · rw [if_pos hal] at h1
            exact Or.inl (hmut a h1)
          · rw [if_neg hal] at h1
            exact Or.inr h1
      · intro h
        rcases (ih _ _ _ _ a).2 h with h1 | h1
        · exact Or.inl (hmut a h1)
        · by_cases hal : al = true
          · rw [if_pos hal] at h1
            exact Or.inl (hmut a h1)
          · rw [if_neg hal] at h1
            exact Or.inr h1
    | false =>
      rw [anneal_step_reject data cols (idxO i) (accO i) loc cal al curr hacc]
      have hmut : ∀ b, b ∈ ((idxO i).foldl (fun st j => mutate_ideal_spot data cols st j)
          loc).filled.map Prod.fst → b ∈ loc.filled.map Prod.fst :=
        fun b hb => mutate_fold_keys_subset data cols (idxO i) loc b hb
      constructor
      · intro h
        rcases (ih _ _ _ _ a).1 h with h1 | h1
        · exact Or.inl h1
        · by_cases hal : al = true
          · rw [if_pos hal] at h1
            exact Or.inl (hmut a h1)
          · rw [if_neg hal] at h1
            exact Or.inr h1
      · intro h
        rcases (ih _ _ _ _ a).2 h with h1 | h1
        · exact Or.inl h1
        · by_cases hal : al = true
          · rw [if_pos hal] at h1
            exact Or.inl (hmut a h1)
          · rw [if_neg hal] at h1
            exact Or.inr h1

theorem simulated_hardening_keys_subset (data : TimetableData) (cols : ℕ)
    (idxO : ℕ → List ℕ) (accO : ℕ → Bool) (iters : ℕ) (st : OptState) (a : ℕ) :
    (a ∈ (simulated_hardening data cols idxO accO iters st).1.filled.map Prod.fst →
      a ∈ st.filled.map Prod.fst) ∧
    (a ∈ (simulated_hardening data cols idxO accO iters st).2.1.filled.map Prod.fst →
      a ∈ st.filled.map Prod.fst) := by
  unfold simulated_hardening
  have h := anneal_fold_keys_subset data cols idxO accO (List.range iters) st st true
    (empty_space_groups_cost st.groups_empty_space).2.2 a
  exact ⟨fun hx => (h.1 hx).elim id id, fun hx => (h.2 hx).elim id id⟩

/-- **Claim C9.**  An allocation left unplaced by the initial placement
never becomes placed later: (1) `mutate_ideal_spot` is a no-op when the
index is absent from `filled`; (2) a relocation never adds a new key to
`filled`; (3) the evolutionary phase and (4) both the local and the
caller-visible candidate of the annealing phase change the candidate
only through `mutate_ideal_spot`, so the key set of `filled` - the set
of placed allocations - never grows, for every oracle and fuel. -/
theorem placed_set_never_grows :
    (∀ (data : TimetableData) (cols : ℕ) (st : OptState) (idx : ℕ),
      alist_lookup st.filled idx = none → mutate_ideal_spot data cols st idx = st) ∧
    (∀ (data : TimetableData) (cols : ℕ) (st : OptState) (idx a : ℕ),
      a ∈ (mutate_ideal_spot data cols st idx).filled.map Prod.fst →
        a ∈ st.filled.map Prod.fst) ∧
    (∀ (data : TimetableData) (rows cols : ℕ) (mo : ℕ → ℕ → ℕ → Bool) (fuel : ℕ)
      (st st' : OptState),
      evolutionary_algorithm data rows cols mo fuel st = EvoOutcome.ok st' →
        ∀ a, a ∈ st'.filled.map Prod.fst → a ∈ st.filled.map Prod.fst) ∧
    (∀ (data : TimetableData) (cols : ℕ) (idxO : ℕ → List ℕ) (accO : ℕ → Bool)
      (iters : ℕ) (st : OptState) (a : ℕ),
      (a ∈ (simulated_hardening data cols idxO accO iters st).1.filled.map Prod.fst →
        a ∈ st.filled.map Prod.fst) ∧
      (a ∈ (simulated_hardening data cols idxO accO iters st).2.1.filled.map Prod.fst →
        a ∈ st.filled.map Prod.fst)) := by
  refine ⟨mutate_noop_unplaced, mutate_filled_keys_subset, ?_, ?_⟩
  · intro data rows cols mo fuel st st' h a ha
    exact evo_runs_keys_subset data rows cols mo fuel (List.range 5) st none st' h a ha
  · intro data cols idxO accO iters st a
    exact simulated_hardening_keys_subset data cols idxO accO iters st a

/-! ### Witness scaffolding for C9 -/

theorem foldl_const {α β : Type} (st : β) : ∀ l : List α, l.foldl (fun s _ => s) st = st := by
  intro l
  induction l with
  | nil => rfl
  | cons a t ih =>
    rw [List.foldl_cons]
    exact ih

/-- With every `u < sigma` draw `false`, the mutation pass is inert. -/
theorem evo_pass_false (data : TimetableData) (cols : ℕ) (cl : List (ℕ × ℕ))
    (st : OptState) : evo_mutation_pass data cols cl (fun _ => false) st = st := by
  unfold evo_mutation_pass
  have h : (fun (s : OptState) (i : ℕ) =>
      if (fun _ : ℕ => false) i && ((cl.getD i (0, 0)).2 != 0) then
        mutate_ideal_spot data cols s (cl.getD i (0, 0)).1
      else s) = fun s _ => s := by
    funext s i
    simp
  rw [h, foldl_const]

/-- A non-optimal state with inert mutations stalls: each iteration
increments `stagnation`, so with enough fuel the loop exits normally by
stagnation with `loss_after` assigned. -/
theorem evo_while_stall (data : TimetableData) (rows cols : ℕ) (st : OptState)
    (hne : ¬(hard_total (hard_constraints_cost rows cols st.matrix data) = 0 ∧
      check_hard_constraints rows cols st.matrix data = 0)) :
    ∀ (fuel stag t : ℕ) (la : Option ℕ), 1 ≤ fuel → 201 ≤ fuel + stag →
      evo_while data rows cols (fun _ _ => false) fuel stag t st la =
        some (st, if 200 ≤ stag then la else
          some (hard_total (hard_constraints_cost rows cols st.matrix data))) := by
  intro fuel
  induction fuel with
  | zero => intro stag t la h1 h2; exact absurd h1 (by omega)
  | succ k ih =>
    intro stag t la h1 h2
    by_cases h200 : 200 ≤ stag
    · simp only [evo_while]
      rw [if_pos h200, if_pos h200]
    · simp only [evo_while]
      rw [if_neg h200, if_neg hne, evo_pass_false, if_neg (lt_irrefl _)]
      rw [ih (stag + 1) (t + 1)
        (some (hard_total (hard_constraints_cost rows cols st.matrix data)))
        (by omega) (by omega)]
      rw [if_neg h200, ite_self]

theorem evo_runs_stall (data : TimetableData) (rows cols : ℕ) (st : OptState)
    (hne : ¬(hard_total (hard_constraints_cost rows cols st.matrix data) = 0 ∧
      check_hard_constraints rows cols st.matrix data = 0))
    (fuel : ℕ) (hf : 201 ≤ fuel) :
    ∀ (runs : List ℕ) (la : Option ℕ),
      evo_runs data rows cols (fun _ _ _ => false) fuel runs st la = EvoOutcome.ok st := by
  intro runs
  induction runs with
  | nil => intro la; rfl
  | cons run rest ih =>
    intro la
    simp only [evo_runs]
    rw [evo_while_stall data rows cols st hne fuel 0 0 la (by omega) (by omega)]
    rw [if_neg (by omega)]
    exact ih (some (hard_total (hard_constraints_cost rows cols st.matrix data)))

theorem c9_evo_ok :
    evolutionary_algorithm c9_data 60 1 (fun _ _ _ => false) 201 c9_st =
      EvoOutcome.ok c9_st := by
  unfold evolutionary_algorithm
  exact evo_runs_stall c9_data 60 1 c9_st (by decide) 201 (by omega) (List.range 5) none

/-- Witness for `placed_set_never_grows`: the no-op on the unplaced
index 7, the relocation of placed allocation 1 of `c1_st0`, the stalled
evolutionary run on `c9_st`, and the full 2500-iteration annealing run
of the C1 scenario. -/
theorem placed_set_never_grows_witness :
    mutate_ideal_spot c1_data 1 c1_st0 7 = c1_st0 ∧
    1 ∈ c1_st0.filled.map Prod.fst ∧
    0 ∈ c9_st.filled.map Prod.fst ∧
    1 ∈ c1_st0.filled.map Prod.fst :=
  ⟨placed_set_never_grows.1 c1_data 1 c1_st0 7 (by decide),
   placed_set_never_grows.2.1 c1_data 1 c1_st0 1 1 (by decide),
   placed_set_never_grows.2.2.1 c9_data 60 1 (fun _ _ _ => false) 201 c9_st c9_st
     c9_evo_ok 0 (by decide),
   (placed_set_never_grows.2.2.2 c1_data 1 (fun _ => [1]) (fun _ => false) 2500
     c1_st0 1).1 (by rw [c1_run]; decide)⟩

end Solara
